import Mathlib

/- Verification of the YNAB4-to-Actual importer: a shallow embedding of
   src/importer.js together with proofs about its device selection, its
   entity importers and its budget replay logic.  Legacy entity ids are
   strings, target ids are modelled as natural numbers, ledger writes are
   logged as an ordered list of operations. -/

namespace YnabImport

/-! ### JavaScript-style primitives -/

/-- The `entityIdMap`: a JS `Map` from legacy entity ids to target ids,
modelled as an association list where the most recent `set` shadows
earlier entries.  `get` of an absent key is `none` (JS `undefined`). -/
def EntityMap := List (String × Nat)

def EntityMap.get (m : EntityMap) (k : String) : Option Nat :=
  (List.find? (fun p => p.1 = k) m).map (·.2)

def EntityMap.set (m : EntityMap) (k : String) (v : Nat) : EntityMap :=
  (k, v) :: m

/-- Insert `x` immediately before the first element `b` with `lt x b`,
i.e. after every element that does not compare greater than `x`: the
insertion step of a stable insertion sort. -/
def insertSorted (lt : α → α → Bool) (x : α) : List α → List α
  | [] => [x]
  | b :: l => if lt x b then x :: b :: l else b :: insertSorted lt x l

/-- Models `sortByKey` (src/importer.js:30-39): JavaScript
`Array.prototype.sort` with the comparator returning -1/1/0 according to
`<`/`>` on a key.  `Array.prototype.sort` is stable, and for a consistent
comparator the stable sorted order is unique, so a stable insertion sort
is an exact model; `lt` is the strict comparison of the keys. -/
def sortByKey (lt : α → α → Bool) (l : List α) : List α :=
  l.foldl (fun acc x => insertSorted lt x acc) []

/-- JavaScript `String.prototype.split` with a one-character separator,
acting on the character list of the string (splitting an empty string
yields one empty piece). -/
def splitChars (sep : Char) : List Char → List (List Char)
  | [] => [[]]
  | c :: rest =>
    match splitChars sep rest with
    | [] => [[c]]
    | hd :: tl => if c = sep then [] :: hd :: tl else (c :: hd) :: tl

/-- JavaScript `<` on strings: lexicographic comparison of the character
sequences. -/
def lexLtChars : List Char → List Char → Bool
  | [], [] => false
  | [], _ :: _ => true
  | _ :: _, [] => false
  | a :: as, b :: bs => if a < b then true else if b < a then false else lexLtChars as bs

/-- Numeric value of a run of decimal digits. -/
def digitsToNat (ds : List Char) : Nat :=
  ds.foldl (fun n c => n * 10 + (c.toNat - Char.toNat '0')) 0

/-- JavaScript `parseInt(str)` with radix 10 on the pieces `split` can
produce here: skip spaces, optional sign, then the leading run of decimal
digits; `none` models the `NaN` returned when no digit is found (also for
the absent piece `undefined`). -/
def jsParseInt (cs : List Char) : Option Int :=
  let stripped := cs.dropWhile (fun c => c = ' ')
  let signAndDigits : Bool × List Char :=
    match stripped with
    | '-' :: rest => (true, rest)
    | '+' :: rest => (false, rest)
    | _ => (false, stripped)
  let ds := signAndDigits.2.takeWhile Char.isDigit
  if ds.isEmpty then none
  else if signAndDigits.1 then some (-(digitsToNat ds : Int))
  else some (digitsToNat ds : Int)

/-! ### Device selection -/

/-- A parsed device metadata record (`JSON.parse` of a file under
`devices/`). -/
structure DeviceData where
  deviceGUID : String
  shortDeviceId : String
  hasFullKnowledge : Bool
  knowledge : String
deriving DecidableEq, Repr

/-- One file under `devices/`: either `JSON.parse` throws on its contents,
or it holds a parsed metadata record. -/
inductive DeviceFile where
  | invalid : DeviceFile
  | valid : DeviceData → DeviceFile
deriving DecidableEq, Repr

structure Device where
  deviceGUID : String
  shortName : String
  recentness : Option Int
deriving DecidableEq, Repr

/-- Models `estimateRecentness` (src/importer.js:293-302): split the
version-vector string on commas, take what follows the dash in each piece
(`undefined` when there is no dash) and sum the parsed numbers.  `none`
models the `NaN` that `parseInt` yields on a malformed piece and that then
propagates through the sum. -/
def estimateRecentness (str : String) : Option Int :=
  (splitChars ',' str.toList).foldl
    (fun total version =>
      match total, (splitChars '-' version)[1]? with
      | some t, some numberChars =>
        match jsParseInt numberChars with
        | some n => some (t + n)
        | none => none
      | _, _ => none)
    (some 0)

/-- The candidate records surviving the filter inside `findLatestDevice`
(src/importer.js:305-326): unparsable files and records without
`hasFullKnowledge` are mapped to `null` and dropped by `.filter(x => x)`. -/
def candidates (files : List DeviceFile) : List Device :=
  files.filterMap fun f =>
    match f with
    | .invalid => none
    | .valid d =>
      if d.hasFullKnowledge then
        some { deviceGUID := d.deviceGUID, shortName := d.shortDeviceId,
               recentness := estimateRecentness d.knowledge }
      else none

/-- JavaScript `<` on numbers where `none` models `NaN`: every comparison
involving `NaN` is false. -/
def jsLtOpt : Option Int → Option Int → Bool
  | some a, some b => a < b
  | _, _ => false

def deviceLt (d1 d2 : Device) : Bool := jsLtOpt d1.recentness d2.recentness

/-- Models `findLatestDevice` (src/importer.js:304-330): sort the
candidates ascending by recentness and read
`devices[devices.length - 1].deviceGUID`.  On an empty candidate list that
read throws (`.deviceGUID` of `undefined`), modelled as `none`. -/
def findLatestDevice (files : List DeviceFile) : Option String :=
  (sortByKey deviceLt (candidates files)).getLast?.map Device.deviceGUID

/-! ### The legacy document -/

structure YAccount where
  entityId : String
  accountType : String
  accountName : String
  onBudget : Bool
  hidden : Bool
  isTombstone : Bool
deriving DecidableEq, Repr

structure YSubCategory where
  entityId : String
  name : String
  sortableIndex : Int
  masterCategoryId : String
  isTombstone : Bool
deriving DecidableEq, Repr

structure YMasterCategory where
  entityId : String
  name : String
  sortableIndex : Int
  type : String
  isTombstone : Bool
  subCategories : Option (List YSubCategory)
deriving DecidableEq, Repr

structure YPayee where
  entityId : String
  name : String
  autoFillCategoryId : Option String
  targetAccountId : Option String
  isTombstone : Bool
deriving DecidableEq, Repr

structure YSubTransaction where
  amount : ℚ
  categoryId : Option String
deriving DecidableEq, Repr

structure YTransaction where
  entityId : String
  accountId : String
  amount : ℚ
  date : String
  memo : Option String
  categoryId : Option String
  payeeId : Option String
  targetAccountId : Option String
  transferTransactionId : Option String
  subTransactions : Option (List YSubTransaction)
  isTombstone : Bool
deriving DecidableEq, Repr

structure YCategoryBudget where
  budgeted : ℚ
  categoryId : String
  overspendingHandling : Option String
  isTombstone : Bool
deriving DecidableEq, Repr

structure YMonthlyBudget where
  month : String
  monthlySubCategoryBudgets : List YCategoryBudget
deriving DecidableEq, Repr

structure YData where
  accounts : List YAccount
  masterCategories : List YMasterCategory
  payees : List YPayee
  transactions : List YTransaction
  monthlyBudgets : List YMonthlyBudget
deriving DecidableEq, Repr

/-! ### The target-side ledger -/

structure TAccount where
  id : Nat
  type : String
  name : String
  offbudget : Bool
  closed : Bool
deriving DecidableEq, Repr

structure TCategory where
  id : Nat
  name : String
deriving DecidableEq, Repr

structure TPayee where
  id : Nat
  name : String
  transfer_acct : Option Nat
deriving DecidableEq, Repr

structure TSubTransaction where
  amount : Int
  category_id : Option Nat
deriving DecidableEq, Repr

structure TTransaction where
  id : Option Nat
  amount : Int
  category_id : Option Nat
  date : String
  notes : Option String
  payee : Option Nat
  payee_id : Option Nat
  transfer_id : Option Nat
  subtransactions : Option (List TSubTransaction)
deriving DecidableEq, Repr

/-- A write call into the Ledger Service, as logged in order. -/
inductive Op where
  | createAccount (id : Nat) (type name : String) (offbudget closed : Bool)
  | createCategoryGroup (id : Nat) (name : String) (is_income : Bool)
  | createCategory (id : Nat) (name : String) (group_id : Option Nat)
  | createPayee (id : Nat) (name : String) (category : Option Nat)
      (transfer_acct : Option Nat)
  | addTransactions (accountId : Option Nat) (transactions : List TTransaction)
  | setBudgetAmount (month : String) (categoryId : Nat) (amount : Int)
  | setBudgetCarryover (month : String) (categoryId : Nat) (flag : Bool)
deriving DecidableEq, Repr

/-- The Ledger Service state: the fresh-id supply, the entity tables the
transaction stage reads back (`getAccounts`, `getCategories`,
`getPayees`), and the ordered log of write calls. -/
structure Ledger where
  nextId : Nat
  accounts : List TAccount
  categories : List TCategory
  payees : List TPayee
  ops : List Op
deriving DecidableEq, Repr

/-- Models `amountToInteger` of `@actual-app/api` (`Math.round(n * 100)`,
rounding half toward positive infinity): for the rational amount
`q = num/den` this is `floor(100*q + 1/2) = (200*num + den) fdiv (2*den)`,
computed here on the numerator and denominator directly. -/
def amountToInteger (q : ℚ) : Int :=
  (200 * q.num + (q.den : Int)).fdiv (2 * (q.den : Int))

/-- Models `monthFromDate` (src/importer.js:52-54):
`format(parseISO(date), "yyyy-MM")`, i.e. the year-month prefix of an ISO
`yyyy-MM-dd` date string. -/
def monthFromDate (date : String) : String := String.mk (date.toList.take 7)

/-! ### Account import -/

/-- Models `mapAccountType` (src/importer.js:12-28). -/
def mapAccountType (type : String) : String :=
  if type = "Cash" ∨ type = "Checking" then "checking"
  else if type = "CreditCard" then "credit"
  else if type = "Savings" then "savings"
  else if type = "InvestmentAccount" then "investment"
  else if type = "Mortgage" then "mortgage"
  else "other"

/-- Models `actual.createAccount`: allocate a fresh id, append the account
to the ledger table and log the call. -/
def Ledger.createAccount (led : Ledger) (type name : String)
    (offbudget closed : Bool) : Nat × Ledger :=
  (led.nextId,
   { led with
     nextId := led.nextId + 1,
     accounts := led.accounts ++ [⟨led.nextId, type, name, offbudget, closed⟩],
     ops := led.ops ++ [.createAccount led.nextId type name offbudget closed] })

/-- Models `importAccounts` (src/importer.js:62-76); the per-account
creations under `Promise.all` are modelled in array order. -/
def importAccounts (data : YData) (m : EntityMap) (led : Ledger) :
    Ledger × EntityMap :=
  data.accounts.foldl
    (fun (st : Ledger × EntityMap) account =>
      if account.isTombstone then st
      else
        let created := st.1.createAccount (mapAccountType account.accountType)
          account.accountName
          (if account.onBudget then false else true)
          (if account.hidden then true else false)
        (created.2, st.2.set account.entityId created.1))
    (led, m)

/-! ### Category import -/

def Ledger.createCategoryGroup (led : Ledger) (name : String)
    (is_income : Bool) : Nat × Ledger :=
  (led.nextId,
   { led with
     nextId := led.nextId + 1,
     ops := led.ops ++ [.createCategoryGroup led.nextId name is_income] })

def Ledger.createCategory (led : Ledger) (name : String)
    (group_id : Option Nat) : Nat × Ledger :=
  (led.nextId,
   { led with
     nextId := led.nextId + 1,
     categories := led.categories ++ [⟨led.nextId, name⟩],
     ops := led.ops ++ [.createCategory led.nextId name group_id] })

def masterCategoryLt (m1 m2 : YMasterCategory) : Bool :=
  m1.sortableIndex < m2.sortableIndex

def subCategoryLt (c1 c2 : YSubCategory) : Bool :=
  c1.sortableIndex < c2.sortableIndex

/-- The subcategories of a master category (an absent array read as
empty). -/
def subsOf (m : YMasterCategory) : List YSubCategory :=
  m.subCategories.getD []

/-- The group-creation condition at src/importer.js:83-88: outflow type,
not tombstoned, a `subCategories` array present and some subcategory not
tombstoned (`.some(...) > 0` in JS coerces the boolean `.some(...)`). -/
def qualifies (m : YMasterCategory) : Bool :=
  m.type = "OUTFLOW" && !m.isTombstone &&
    (match m.subCategories with
     | some subs => subs.any (fun c => !c.isTombstone)
     | none => false)

/-- The sequential subcategory creation loop at src/importer.js:104-112. -/
def createSubCategories (st : Ledger × EntityMap) :
    List YSubCategory → Ledger × EntityMap
  | [] => st
  | c :: cs =>
    if !c.isTombstone then
      let created := st.1.createCategory c.name (st.2.get c.masterCategoryId)
      createSubCategories (created.2, st.2.set c.entityId created.1) cs
    else createSubCategories st cs

/-- Processing of one master category (the `Promise.all` callback at
src/importer.js:82-115): create the group, register it, then create the
subcategories sorted ascending by `sortableIndex` and reversed. -/
def processMasterCategory (st : Ledger × EntityMap) (m : YMasterCategory) :
    Ledger × EntityMap :=
  if qualifies m then
    let created := st.1.createCategoryGroup m.name false
    let st1 : Ledger × EntityMap := (created.2, st.2.set m.entityId created.1)
    match m.subCategories with
    | some subs => createSubCategories st1 (sortByKey subCategoryLt subs).reverse
    | none => st1
  else st

/-- Models `importCategories` (src/importer.js:78-117); master categories
are processed in ascending `sortableIndex` order. -/
def importCategories (data : YData) (m : EntityMap) (led : Ledger) :
    Ledger × EntityMap :=
  (sortByKey masterCategoryLt data.masterCategories).foldl
    processMasterCategory (led, m)

/-! ### Payee import -/

def Ledger.createPayee (led : Ledger) (name : String) (category : Option Nat)
    (transfer_acct : Option Nat) : Nat × Ledger :=
  (led.nextId,
   { led with
     nextId := led.nextId + 1,
     payees := led.payees ++ [⟨led.nextId, name, transfer_acct⟩],
     ops := led.ops ++ [.createPayee led.nextId name category transfer_acct] })

/-- Models `importPayees` (src/importer.js:119-133). -/
def importPayees (data : YData) (m : EntityMap) (led : Ledger) :
    Ledger × EntityMap :=
  data.payees.foldl
    (fun (st : Ledger × EntityMap) payee =>
      if payee.isTombstone then st
      else
        let created := st.1.createPayee payee.name
          (payee.autoFillCategoryId.bind st.2.get)
          (payee.targetAccountId.bind st.2.get)
        (created.2, st.2.set payee.entityId created.1))
    (led, m)

/-! ### Transaction import -/

/-- Models `getCategory` (src/importer.js:141-151). -/
def getCategory (incomeCategoryId : Nat) (m : EntityMap)
    (id : Option String) : Option Nat :=
  match id with
  | none => none
  | some s =>
    if s = "Category/__Split__" then none
    else if s = "Category/__ImmediateIncome__" ∨ s = "Category/__DeferredIncome__" then
      some incomeCategoryId
    else m.get s

/-- JavaScript strict equality between a stored target id field and a map
lookup: the field is a target id or `null`, the lookup a target id or
`undefined`; `null === undefined` is false, so only two present, equal ids
compare equal. -/
def strictEqIds : Option Nat → Option Nat → Bool
  | some a, some b => a = b
  | _, _ => false

/-- The payee resolution at src/importer.js:184-193.  The outer `none`
models the `TypeError` thrown by reading `.id` when `payees.find` comes up
empty on a transfer leg. -/
def resolvePayee (payees : List TPayee) (m : EntityMap) (t : YTransaction) :
    Option (Option Nat) :=
  if (t.transferTransactionId.bind m.get).isSome then
    match payees.find?
        (fun p => strictEqIds p.transfer_acct (t.targetAccountId.bind m.get)) with
    | some p => some (some p.id)
    | none => none
  else some (t.payeeId.bind m.get)

/-- The per-transaction conversion (the `map` callback at
src/importer.js:175-218).  `none` models a thrown error, `some none` a
tombstoned transaction later dropped by `.filter(x => x)`, and
`some (some tx)` the transaction handed to `addTransactions`. -/
def convertTransaction (accounts : List TAccount) (payees : List TPayee)
    (incomeCategoryId : Nat) (m : EntityMap) (accountId : String)
    (t : YTransaction) : Option (Option TTransaction) :=
  if t.isTombstone then some none
  else
    match resolvePayee payees m t with
    | none => none
    | some payee_id =>
      match accounts.find? (fun a => strictEqIds (some a.id) (m.get accountId)) with
      | none => none
      | some acct =>
        some (some
          { id := m.get t.entityId,
            amount := amountToInteger t.amount,
            category_id :=
              if acct.offbudget then none
              else getCategory incomeCategoryId m t.categoryId,
            date := t.date,
            notes := t.memo.bind (fun s => if s = "" then none else some s),
            payee := none,
            payee_id := payee_id,
            transfer_id := t.transferTransactionId.bind m.get,
            subtransactions := t.subTransactions.map (fun subs =>
              subs.map (fun s =>
                { amount := amountToInteger s.amount,
                  category_id := getCategory incomeCategoryId m s.categoryId })) })

/-- The key list of `groupBy(transactions, "accountId")`
(src/importer.js:41-50): object keys in first-insertion order. -/
def groupByKeys (ts : List YTransaction) : List String :=
  ts.foldl (fun ks t => if ks.contains t.accountId then ks else ks ++ [t.accountId]) []

/-- Models `importTransactions` (src/importer.js:135-224): find the Income
category, pre-allocate a fresh id for every transaction (`uuid.v4()`
modelled by the fresh-id supply), then per account convert and batch-write
the non-tombstoned transactions.  `none` models a thrown error (no Income
category, a transaction whose account cannot be found, or a transfer leg
whose counter-payee cannot be found). -/
def importTransactions (data : YData) (m : EntityMap) (led : Ledger) :
    Option (Ledger × EntityMap) :=
  match led.categories.find? (fun c => c.name = "Income") with
  | none => none
  | some incomeCategory =>
    let pre : Ledger × EntityMap :=
      data.transactions.foldl
        (fun (st : Ledger × EntityMap) t =>
          ({ st.1 with nextId := st.1.nextId + 1 }, st.2.set t.entityId st.1.nextId))
        (led, m)
    match
      (groupByKeys data.transactions).foldlM
        (fun (led : Ledger) accountId =>
          let transactions := data.transactions.filter
            (fun t => t.accountId = accountId)
          match transactions.mapM
              (convertTransaction led.accounts led.payees incomeCategory.id
                pre.2 accountId) with
          | none => none
          | some converted =>
            some { led with
                   ops := led.ops ++
                     [Op.addTransactions (pre.2.get accountId)
                        converted.reduceOption] })
        pre.1
    with
    | none => none
    | some led1 => some (led1, pre.2)

/-! ### Budget replay -/

/-- One step of the backfill in `fillInBudgets` (src/importer.js:236-243):
push a zero entry for `category` unless the growing array already holds an
entry for it (the pushed JS object carries no `overspendingHandling` and
no `isTombstone` field). -/
def backfillEntry (cid : String) : YCategoryBudget :=
  { budgeted := 0, categoryId := cid, overspendingHandling := none,
    isTombstone := false }

def backfillStep (budgets : List YCategoryBudget) (category : YSubCategory) :
    List YCategoryBudget :=
  if budgets.any (fun b => b.categoryId = category.entityId) then budgets
  else budgets ++ [backfillEntry category.entityId]

/-- The backfill over one master category's subcategories
(src/importer.js:234-245). -/
def backfillMaster (budgets : List YCategoryBudget) (master : YMasterCategory) :
    List YCategoryBudget :=
  match master.subCategories with
  | none => budgets
  | some subs => subs.foldl backfillStep budgets

/-- Models `fillInBudgets` (src/importer.js:226-247): for every
subcategory in the master-category tree, push a zero entry if the growing
array holds no entry for it yet. -/
def fillInBudgets (data : YData) (categoryBudgets : List YCategoryBudget) :
    List YCategoryBudget :=
  data.masterCategories.foldl backfillMaster categoryBudgets

/-- The per-category carryover flags: a JS object whose absent keys read
as falsy. -/
def CarryoverFlags := Nat → Bool

def noFlags : CarryoverFlags := fun _ => false

/-- Processing of one (possibly backfilled) category budget inside one
month (src/importer.js:260-286): skip tombstoned and unmapped entries, set
the budget amount, then update the carryover flag and push the on-state
when required. -/
def processCategoryBudget (m : EntityMap) (month : String)
    (st : List Op × CarryoverFlags) (catBudget : YCategoryBudget) :
    List Op × CarryoverFlags :=
  if catBudget.isTombstone then st
  else
    match m.get catBudget.categoryId with
    | none => st
    | some catId =>
      let ops := st.1 ++ [Op.setBudgetAmount month catId
        (amountToInteger catBudget.budgeted)]
      if catBudget.overspendingHandling = some "AffectsBuffer" then
        (ops, fun c => if c = catId then false else st.2 c)
      else if catBudget.overspendingHandling = some "Confined" || st.2 catId then
        (ops ++ [Op.setBudgetCarryover month catId true],
         fun c => if c = catId then true else st.2 c)
      else (ops, st.2)

def monthlyBudgetLt (b1 b2 : YMonthlyBudget) : Bool :=
  lexLtChars b1.month.toList b2.month.toList

/-- One month of the budget replay (the `Promise.all` at
src/importer.js:257-289, modelled in array order). -/
def processMonth (data : YData) (m : EntityMap)
    (st : List Op × CarryoverFlags) (budget : YMonthlyBudget) :
    List Op × CarryoverFlags :=
  (fillInBudgets data budget.monthlySubCategoryBudgets).foldl
    (processCategoryBudget m (monthFromDate budget.month)) st

/-- Models `importBudgets` (src/importer.js:249-291): months sorted
ascending, carryover flags initially all off.  On an empty
`monthlyBudgets` list the source reads `budgets[0].month` of `undefined`
and throws before any write, modelled as `none`.
`actual.batchBudgetUpdates` only batches the write calls and is modelled
as the plain call sequence. -/
def importBudgets (data : YData) (m : EntityMap) (led : Ledger) :
    Option Ledger :=
  match sortByKey monthlyBudgetLt data.monthlyBudgets with
  | [] => none
  | b0 :: rest =>
    let _earliestMonth := monthFromDate b0.month
    let run := (b0 :: rest).foldl (processMonth data m) ([], noFlags)
    some { led with ops := led.ops ++ run.1 }

/-! ### The whole run -/

/-- Models `doImport` (src/importer.js:332-351): the five stages in order,
threading the entity id map; a throw in a later stage aborts the run. -/
def doImport (data : YData) (led : Ledger) : Option Ledger :=
  let stA := importAccounts data ([] : EntityMap) led
  let stC := importCategories data stA.2 stA.1
  let stP := importPayees data stC.2 stC.1
  match importTransactions data stP.2 stP.1 with
  | none => none
  | some stT => importBudgets data stT.2 stT.1

/-- Models the selection-then-import control flow of `importYNAB4`
(src/importer.js:353-386): the device metadata files are read and the
authoritative device chosen before `actual.runImport` starts writing; a
failed selection aborts with no ledger produced. -/
def runImport (files : List DeviceFile) (snapshot : String → YData)
    (led : Ledger) : Option Ledger :=
  match findLatestDevice files with
  | none => none
  | some deviceGUID => doImport (snapshot deviceGUID) led

/-! ### Helper lemmas: the entity map -/

theorem EntityMap.get_set (m : EntityMap) (k k' : String) (v : Nat) :
    (m.set k v).get k' = if k' = k then some v else m.get k' := by
  by_cases h : k' = k
  · subst h
    simp [EntityMap.set, EntityMap.get, List.find?_cons]
  · simp [EntityMap.set, EntityMap.get, List.find?_cons, Ne.symm h,
      decide_eq_true_eq, h]

/-! ### Helper lemmas: the stable sort -/

theorem insertSorted_ne_nil (lt : α → α → Bool) (x : α) :
    ∀ l : List α, insertSorted lt x l ≠ []
  | [] => by simp [insertSorted]
  | b :: l => by
    by_cases h : lt x b = true
    · simp [insertSorted, h]
    · simp [insertSorted, h]

theorem mem_insertSorted (lt : α → α → Bool) (x y : α) :
    ∀ l : List α, y ∈ insertSorted lt x l ↔ y = x ∨ y ∈ l := by
  intro l
  induction l with
  | nil => simp [insertSorted]
  | cons b l ih =>
    by_cases h : lt x b = true
    · simp only [insertSorted, if_pos h, List.mem_cons]
    · simp only [insertSorted, if_neg h, List.mem_cons, ih]
      tauto

theorem length_insertSorted (lt : α → α → Bool) (x : α) :
    ∀ l : List α, (insertSorted lt x l).length = l.length + 1
  | [] => by simp [insertSorted]
  | b :: l => by
    by_cases h : lt x b = true
    · simp [insertSorted, h]
    · simp [insertSorted, h, length_insertSorted lt x l]

theorem countP_insertSorted (lt : α → α → Bool) (p : α → Bool) (x : α) :
    ∀ l : List α, (insertSorted lt x l).countP p =
      (if p x then 1 else 0) + l.countP p
  | [] => by
    by_cases h : p x = true
    · simp [insertSorted, List.countP_cons, h]
    · simp [insertSorted, List.countP_cons, h]
  | b :: l => by
    by_cases h : lt x b = true
    · by_cases hp : p x = true
      · simp [insertSorted, h, List.countP_cons, hp]
        omega
      · simp [insertSorted, h, List.countP_cons, hp]
    · have ih := countP_insertSorted lt p x l
      by_cases hp : p x = true
      · simp [insertSorted, h, List.countP_cons, ih, hp]
        omega
      · simp [insertSorted, h, List.countP_cons, ih, hp]

theorem mem_foldl_insertSorted (lt : α → α → Bool) (y : α) :
    ∀ (l acc : List α),
      (y ∈ l.foldl (fun acc x => insertSorted lt x acc) acc ↔ y ∈ acc ∨ y ∈ l)
  | [], acc => by simp
  | b :: l, acc => by
    rw [List.foldl_cons, mem_foldl_insertSorted lt y l, mem_insertSorted]
    simp only [List.mem_cons]
    tauto

theorem mem_sortByKey (lt : α → α → Bool) (y : α) (l : List α) :
    y ∈ sortByKey lt l ↔ y ∈ l := by
  rw [sortByKey, mem_foldl_insertSorted]
  simp

theorem countP_foldl_insertSorted (lt : α → α → Bool) (p : α → Bool) :
    ∀ (l acc : List α),
      (l.foldl (fun acc x => insertSorted lt x acc) acc).countP p =
        acc.countP p + l.countP p
  | [], acc => by simp
  | b :: l, acc => by
    rw [List.foldl_cons, countP_foldl_insertSorted lt p l,
      countP_insertSorted, List.countP_cons]
    by_cases h : p b = true
    · simp [h]
      omega
    · simp [h]

theorem countP_sortByKey (lt : α → α → Bool) (p : α → Bool) (l : List α) :
    (sortByKey lt l).countP p = l.countP p := by
  rw [sortByKey, countP_foldl_insertSorted]
  simp

theorem length_foldl_insertSorted (lt : α → α → Bool) :
    ∀ (l acc : List α),
      (l.foldl (fun acc x => insertSorted lt x acc) acc).length =
        acc.length + l.length
  | [], acc => by simp
  | b :: l, acc => by
    rw [List.foldl_cons, length_foldl_insertSorted lt l, length_insertSorted]
    simp only [List.length_cons]
    omega

theorem sortByKey_eq_nil_iff (lt : α → α → Bool) (l : List α) :
    sortByKey lt l = [] ↔ l = [] := by
  constructor
  · intro h
    have := length_foldl_insertSorted lt l []
    rw [← sortByKey, h] at this
    simpa using (List.length_eq_zero.mp (by simpa using this.symm))
  · intro h; subst h; rfl

theorem mem_of_getLast?_eq {l : List α} {a : α} (h : l.getLast? = some a) :
    a ∈ l := by
  induction l with
  | nil => simp at h
  | cons b l ih =>
    cases l with
    | nil =>
      simp_all [List.getLast?_singleton]
    | cons c l' =>
      rw [List.getLast?_cons_cons] at h
      exact List.mem_cons_of_mem _ (ih h)

theorem getLast?_cons_of_ne_nil {l : List α} (h : l ≠ []) (b : α) :
    (b :: l).getLast? = l.getLast? := by
  cases l with
  | nil => exact absurd rfl h
  | cons c l' => exact List.getLast?_cons_cons

theorem getLast?_insertSorted (lt : α → α → Bool) (x : α) :
    ∀ l : List α, (insertSorted lt x l).getLast? =
      if l.any (fun b => lt x b) then l.getLast? else some x
  | [] => by simp [insertSorted]
  | b :: l => by
    by_cases h : lt x b = true
    · simp [insertSorted, h, List.any_cons, List.getLast?_cons_cons]
    · have hfalse : lt x b = false := by
        cases hx : lt x b
        · rfl
        · exact absurd hx h
      rw [insertSorted, if_neg h,
        getLast?_cons_of_ne_nil (insertSorted_ne_nil lt x l) b,
        getLast?_insertSorted lt x l]
      simp only [List.any_cons, hfalse, Bool.false_or]
      by_cases hl : l.any (fun b => lt x b) = true
      · rw [if_pos hl, if_pos hl, getLast?_cons_of_ne_nil _ b]
        intro hnil
        subst hnil
        simp at hl
      · rw [if_neg hl, if_neg hl]

/-- The invariant maintained while `sortByKey` folds over the input list
`p`: every element of the accumulator came from `p`, and the last element
of the accumulator is a maximum of `p` that occurs after every other
element of `p` attaining the maximum. -/
def SortInv (lt : α → α → Bool) (p acc : List α) : Prop :=
  (∀ b ∈ acc, b ∈ p) ∧
  ((acc = [] ∧ p = []) ∨
    (∃ x pre post, acc.getLast? = some x ∧ p = pre ++ x :: post ∧
      (∀ b ∈ p, lt x b = false) ∧ (∀ b ∈ post, lt b x = true)))

theorem sortInv_step (lt : α → α → Bool) (G : α → Prop)
    (hirr : ∀ a, G a → lt a a = false)
    (hasym : ∀ a b, G a → G b → lt a b = true → lt b a = false)
    (htrans1 : ∀ x b z, G x → G b → G z → lt x b = true → lt z b = false →
      lt x z = true)
    (htrans2 : ∀ x z b, G x → G z → G b → lt x z = false → lt z b = false →
      lt x b = false)
    (p acc : List α) (x : α)
    (hg : ∀ y ∈ p ++ [x], G y)
    (hinv : SortInv lt p acc) :
    SortInv lt (p ++ [x]) (insertSorted lt x acc) := by
  obtain ⟨hsub, hmain⟩ := hinv
  have hGx : G x := hg x (by simp)
  constructor
  · intro b hb
    rcases (mem_insertSorted lt x b acc).mp hb with h | h
    · simp [h]
    · exact List.mem_append_left _ (hsub b h)
  · rcases hmain with ⟨hacc, hp⟩ | ⟨m, pre, post, hlast, hp, hmax, hpost⟩
    · subst hacc; subst hp
      right
      refine ⟨x, [], [], by simp [insertSorted], by simp, ?_, by simp⟩
      intro b hb
      simp at hb
      subst hb
      exact hirr _ hGx
    · have hGm : G m := hg m (List.mem_append_left _ (hsub m (mem_of_getLast?_eq hlast)))
      have hany : acc.any (fun b => lt x b) = lt x m := by
        cases hxm : lt x m
        · rw [List.any_eq_false]
          intro b hb
          intro hcon
          have hGb : G b := hg b (List.mem_append_left _ (hsub b hb))
          have := htrans1 x b m hGx hGb hGm hcon (hmax b (hsub b hb))
          rw [this] at hxm
          exact Bool.true_eq_false.mp hxm
        · rw [List.any_eq_true]
          exact ⟨m, mem_of_getLast?_eq hlast, hxm⟩
      right
      cases hxm : lt x m
      · -- x is the new maximum: it goes to the end
        refine ⟨x, p, [], ?_, by simp, ?_, by simp⟩
        · rw [getLast?_insertSorted, hany, hxm, if_neg (by simp)]
        · intro b hb
          rcases List.mem_append.mp hb with h | h
          · exact htrans2 x m b hGx hGm (hg b (List.mem_append_left _ h)) hxm
              (hmax b h)
          · simp at h; subst h; exact hirr _ hGx
      · -- the old maximum m stays last
        refine ⟨m, pre, post ++ [x], ?_, ?_, ?_, ?_⟩
        · rw [getLast?_insertSorted, hany, hxm, if_pos rfl]
          exact hlast
        · rw [hp]; simp
        · intro b hb
          rcases List.mem_append.mp hb with h | h
          · exact hmax b h
          · simp at h; subst h
            exact hasym _ m hGx hGm hxm
        · intro b hb
          rcases List.mem_append.mp hb with h | h
          · exact hpost b h
          · simp at h; subst h; exact hxm

theorem foldl_insertSorted_inv (lt : α → α → Bool) (G : α → Prop)
    (hirr : ∀ a, G a → lt a a = false)
    (hasym : ∀ a b, G a → G b → lt a b = true → lt b a = false)
    (htrans1 : ∀ x b z, G x → G b → G z → lt x b = true → lt z b = false →
      lt x z = true)
    (htrans2 : ∀ x z b, G x → G z → G b → lt x z = false → lt z b = false →
      lt x b = false) :
    ∀ (l p acc : List α), (∀ y ∈ p ++ l, G y) → SortInv lt p acc →
      SortInv lt (p ++ l) (l.foldl (fun acc x => insertSorted lt x acc) acc)
  | [], p, acc, hg, hinv => by simpa using hinv
  | x :: l, p, acc, hg, hinv => by
    have hstep := sortInv_step lt G hirr hasym htrans1 htrans2 p acc x
      (fun y hy => hg y (by
        rcases List.mem_append.mp hy with h | h
        · exact List.mem_append_left _ h
        · simp at h; subst h; simp)) hinv
    have := foldl_insertSorted_inv lt G hirr hasym htrans1 htrans2 l (p ++ [x])
      (insertSorted lt x acc)
      (fun y hy => hg y (by
        rcases List.mem_append.mp hy with h | h
        · rcases List.mem_append.mp h with h1 | h1
          · exact List.mem_append_left _ h1
          · simp at h1; subst h1; simp
        · exact List.mem_append_right _ (List.mem_cons_of_mem _ h)))
      hstep
    rw [List.foldl_cons]
    simpa using this

/-- The last element of `sortByKey lt l` is a maximum of `l` occurring
after every other maximum, provided `lt` behaves like a strict total order
on the elements of `l`. -/
theorem sortByKey_getLast_spec (lt : α → α → Bool) (G : α → Prop)
    (hirr : ∀ a, G a → lt a a = false)
    (hasym : ∀ a b, G a → G b → lt a b = true → lt b a = false)
    (htrans1 : ∀ x b z, G x → G b → G z → lt x b = true → lt z b = false →
      lt x z = true)
    (htrans2 : ∀ x z b, G x → G z → G b → lt x z = false → lt z b = false →
      lt x b = false)
    (l : List α) (hg : ∀ y ∈ l, G y) (hne : l ≠ []) :
    ∃ x pre post, l = pre ++ x :: post ∧
      (sortByKey lt l).getLast? = some x ∧
      (∀ b ∈ l, lt x b = false) ∧
      (∀ b ∈ post, lt b x = true) := by
  have hinv := foldl_insertSorted_inv lt G hirr hasym htrans1 htrans2 l [] []
    (by simpa using hg)
    ⟨by simp, Or.inl ⟨rfl, rfl⟩⟩
  rw [List.nil_append] at hinv
  rcases hinv.2 with ⟨_, hl⟩ | ⟨x, pre, post, hlast, hp, hmax, hpost⟩
  · exact absurd hl hne
  · exact ⟨x, pre, post, hp, hlast, hmax, hpost⟩

/-! ### Device selection facts -/

theorem deviceLt_irrefl (a : Device) (ha : (a.recentness).isSome) :
    deviceLt a a = false := by
  rcases Option.isSome_iff_exists.mp ha with ⟨v, hv⟩
  simp [deviceLt, jsLtOpt, hv]

theorem deviceLt_asymm (a b : Device) (ha : (a.recentness).isSome)
    (hb : (b.recentness).isSome) (h : deviceLt a b = true) :
    deviceLt b a = false := by
  rcases Option.isSome_iff_exists.mp ha with ⟨va, hva⟩
  rcases Option.isSome_iff_exists.mp hb with ⟨vb, hvb⟩
  simp only [deviceLt, jsLtOpt, hva, hvb, decide_eq_true_eq,
    decide_eq_false_iff_not] at h ⊢
  omega

theorem deviceLt_trans1 (x b z : Device) (hx : (x.recentness).isSome)
    (hb : (b.recentness).isSome) (hz : (z.recentness).isSome)
    (h1 : deviceLt x b = true) (h2 : deviceLt z b = false) :
    deviceLt x z = true := by
  rcases Option.isSome_iff_exists.mp hx with ⟨vx, hvx⟩
  rcases Option.isSome_iff_exists.mp hb with ⟨vb, hvb⟩
  rcases Option.isSome_iff_exists.mp hz with ⟨vz, hvz⟩
  simp only [deviceLt, jsLtOpt, hvx, hvb, hvz, decide_eq_true_eq,
    decide_eq_false_iff_not] at h1 h2 ⊢
  omega

theorem deviceLt_trans2 (x z b : Device) (hx : (x.recentness).isSome)
    (hz : (z.recentness).isSome) (hb : (b.recentness).isSome)
    (h1 : deviceLt x z = false) (h2 : deviceLt z b = false) :
    deviceLt x b = false := by
  rcases Option.isSome_iff_exists.mp hx with ⟨vx, hvx⟩
  rcases Option.isSome_iff_exists.mp hz with ⟨vz, hvz⟩
  rcases Option.isSome_iff_exists.mp hb with ⟨vb, hvb⟩
  simp only [deviceLt, jsLtOpt, hvx, hvb, hvz, decide_eq_false_iff_not] at h1 h2 ⊢
  omega

/-- C1 (amended): among the candidate records that have full knowledge
(all of whose version vectors parse to a score), `findLatestDevice`
returns the GUID of a candidate whose summed version total no candidate
strictly exceeds; and that candidate comes after every other candidate
attaining the maximum, i.e. a tie is broken toward the *last* such device
in input order (the stable ascending sort is read from its back). -/
theorem findLatestDevice_picks_last_max (files : List DeviceFile)
    (hne : candidates files ≠ [])
    (hsome : ∀ d ∈ candidates files, (d.recentness).isSome) :
    ∃ d pre post, candidates files = pre ++ d :: post ∧
      findLatestDevice files = some d.deviceGUID ∧
      (∀ d' ∈ candidates files, jsLtOpt d.recentness d'.recentness = false) ∧
      (∀ d' ∈ post, jsLtOpt d'.recentness d.recentness = true) := by
  obtain ⟨x, pre, post, hp, hlast, hmax, hpost⟩ :=
    sortByKey_getLast_spec deviceLt (fun d => (d.recentness).isSome)
      deviceLt_irrefl deviceLt_asymm deviceLt_trans1 deviceLt_trans2
      (candidates files) hsome hne
  refine ⟨x, pre, post, hp, ?_, ?_, ?_⟩
  · rw [findLatestDevice, hlast]
    rfl
  · intro d' hd'
    exact hmax d' hd'
  · intro d' hd'
    exact hpost d' hd'

def tieDeviceA : DeviceFile := .valid ⟨"g1", "A", true, "A-1"⟩

def tieDeviceB : DeviceFile := .valid ⟨"g2", "B", true, "B-1"⟩

/-- Counterexample to C1 as stated: two full-knowledge devices with equal
version totals (both score 1); the claim says the *first* in input order
("g1") is selected, but the source selects "g2", the last. -/
theorem findLatestDevice_tie_takes_last :
    (candidates [tieDeviceA, tieDeviceB]).map Device.recentness =
      [some 1, some 1] ∧
    (candidates [tieDeviceA, tieDeviceB]).map Device.deviceGUID =
      ["g1", "g2"] ∧
    findLatestDevice [tieDeviceA, tieDeviceB] = some "g2" := by
  refine ⟨by decide, by decide, by decide⟩

/-- Witness for the amended C1 at a concrete input. -/
theorem findLatestDevice_picks_last_max_witness :
    ∃ d pre post,
      candidates [tieDeviceA, tieDeviceB] = pre ++ d :: post ∧
      findLatestDevice [tieDeviceA, tieDeviceB] = some d.deviceGUID ∧
      (∀ d' ∈ candidates [tieDeviceA, tieDeviceB],
        jsLtOpt d.recentness d'.recentness = false) ∧
      (∀ d' ∈ post, jsLtOpt d'.recentness d.recentness = true) :=
  findLatestDevice_picks_last_max [tieDeviceA, tieDeviceB]
    (by decide) (by decide)

/-- C9: a device metadata file that is unparsable or lacks the
full-knowledge flag is skipped locally (removing it from the input does
not change the run at all), and when no candidate remains after the
filtering the whole run fails up front, producing no ledger at all. -/
theorem deviceSelection_skips_and_fails_empty :
    (∀ (l1 l2 : List DeviceFile) (f : DeviceFile),
      (f = DeviceFile.invalid ∨
        ∃ d, f = DeviceFile.valid d ∧ d.hasFullKnowledge = false) →
      ∀ (snapshot : String → YData) (led : Ledger),
        runImport (l1 ++ f :: l2) snapshot led = runImport (l1 ++ l2) snapshot led) ∧
    (∀ (files : List DeviceFile) (snapshot : String → YData) (led : Ledger),
      candidates files = [] → runImport files snapshot led = none) := by
  constructor
  · intro l1 l2 f hf snapshot led
    have hf0 : candidates [f] = [] := by
      rcases hf with h | ⟨d, h, hd⟩
      · subst h; rfl
      · subst h; simp [candidates, hd]
    have hcand : candidates (l1 ++ f :: l2) = candidates (l1 ++ l2) := by
      have h1 : f :: l2 = [f] ++ l2 := rfl
      rw [candidates, candidates, List.filterMap_append, List.filterMap_append,
        h1, List.filterMap_append]
      rw [candidates] at hf0
      rw [hf0]
      simp
    have hfind : findLatestDevice (l1 ++ f :: l2) = findLatestDevice (l1 ++ l2) := by
      rw [findLatestDevice, findLatestDevice, hcand]
    rw [runImport, runImport, hfind]
  · intro files snapshot led h
    have hfind : findLatestDevice files = none := by
      rw [findLatestDevice, h]
      rfl
    rw [runImport, hfind]

/-- Witness for C9 at concrete inputs: an unparsable device file is
dropped without effect, and a run whose only device file is unparsable
produces nothing. -/
theorem deviceSelection_skips_and_fails_empty_witness :
    runImport [tieDeviceA, DeviceFile.invalid]
        (fun _ => ⟨[], [], [], [], []⟩) ⟨0, [], [], [], []⟩ =
      runImport [tieDeviceA] (fun _ => ⟨[], [], [], [], []⟩) ⟨0, [], [], [], []⟩ ∧
    runImport [DeviceFile.invalid]
        (fun _ => ⟨[], [], [], [], []⟩) ⟨0, [], [], [], []⟩ = none :=
  ⟨deviceSelection_skips_and_fails_empty.1 [tieDeviceA] [] DeviceFile.invalid
      (Or.inl rfl) _ _,
   deviceSelection_skips_and_fails_empty.2 [DeviceFile.invalid] _ _ (by decide)⟩

/-- C10: on a document whose `monthlyBudgets` list is empty the budget
stage reads `budgets[0].month` of an absent element and throws, so the
run aborts there instead of completing with zero budget writes. -/
theorem importBudgets_empty_aborts (data : YData) (m : EntityMap)
    (led : Ledger) (h : data.monthlyBudgets = []) :
    importBudgets data m led = none := by
  rw [importBudgets, h]
  rfl

/-- Witness for C10 at a concrete input. -/
theorem importBudgets_empty_aborts_witness :
    importBudgets ⟨[], [], [], [], []⟩ ([] : EntityMap) ⟨0, [], [], [], []⟩ = none :=
  importBudgets_empty_aborts _ _ _ rfl

/-! ### Account import facts -/

/-- The fields of a created account apart from its generated id. -/
def accountFields (t : TAccount) : String × String × Bool × Bool :=
  (t.type, t.name, t.offbudget, t.closed)

theorem importAccounts_fold :
    ∀ (l : List YAccount) (st : Ledger × EntityMap),
      ((l.foldl
          (fun (st : Ledger × EntityMap) account =>
            if account.isTombstone then st
            else
              let created := st.1.createAccount (mapAccountType account.accountType)
                account.accountName
                (if account.onBudget then false else true)
                (if account.hidden then true else false)
              (created.2, st.2.set account.entityId created.1))
          st).1.accounts).map accountFields =
        (st.1.accounts).map accountFields ++
          (l.filter (fun a => a.isTombstone = false)).map
            (fun a => (mapAccountType a.accountType, a.accountName,
              !a.onBudget, a.hidden))
  | [], st => by simp
  | a :: l, st => by
    rw [List.foldl_cons]
    by_cases h : a.isTombstone
    · have hfilter : a.isTombstone = false ↔ False := by simp [h]
      rw [if_pos h, importAccounts_fold l]
      simp [List.filter_cons, h]
    · have hts : a.isTombstone = false := by simpa using h
      rw [if_neg h, importAccounts_fold l]
      have hoff : (if a.onBudget then false else true) = !a.onBudget := by
        cases a.onBudget <;> rfl
      have hcl : (if a.hidden then true else false) = a.hidden := by
        cases a.hidden <;> rfl
      simp [Ledger.createAccount, accountFields, List.filter_cons, hts, hoff, hcl]

/-- C7: for every non-tombstoned source account exactly one target account
is created, in order, with the off-budget flag the inversion of the legacy
`onBudget` flag, the closed flag equal to the legacy `hidden` flag, and
the type given by the fixed lookup table; tombstoned accounts create
nothing. -/
theorem importAccounts_spec (data : YData) (m : EntityMap) (led : Ledger) :
    ((importAccounts data m led).1.accounts).map accountFields =
      (led.accounts).map accountFields ++
        (data.accounts.filter (fun a => a.isTombstone = false)).map
          (fun a => (mapAccountType a.accountType, a.accountName,
            !a.onBudget, a.hidden)) ∧
    (mapAccountType "Cash" = "checking" ∧ mapAccountType "Checking" = "checking" ∧
      mapAccountType "CreditCard" = "credit" ∧ mapAccountType "Savings" = "savings" ∧
      mapAccountType "InvestmentAccount" = "investment" ∧
      mapAccountType "Mortgage" = "mortgage") ∧
    (∀ s : String, s ∉ ["Cash", "Checking", "CreditCard", "Savings",
        "InvestmentAccount", "Mortgage"] → mapAccountType s = "other") := by
  refine ⟨importAccounts_fold data.accounts (led, m),
    ⟨by decide, by decide, by decide, by decide, by decide, by decide⟩, ?_⟩
  intro s hs
  simp only [List.mem_cons, List.not_mem_nil, or_false, not_or] at hs
  obtain ⟨h1, h2, h3, h4, h5, h6⟩ := hs
  simp [mapAccountType, h1, h2, h3, h4, h5, h6]

/-- Witness for C7 at a concrete input: one active `Cash` account on
budget and not hidden, one tombstoned account, and an unknown type mapped
to `other`. -/
theorem importAccounts_spec_witness :
    ((importAccounts
        ⟨[⟨"a1", "Cash", "Wallet", true, false, false⟩,
          ⟨"a2", "Savings", "Old", true, false, true⟩], [], [], [], []⟩
        ([] : EntityMap) ⟨0, [], [], [], []⟩).1.accounts).map accountFields =
      [("checking", "Wallet", false, false)] ∧
    mapAccountType "Visa" = "other" := by
  have h := importAccounts_spec
    ⟨[⟨"a1", "Cash", "Wallet", true, false, false⟩,
      ⟨"a2", "Savings", "Old", true, false, true⟩], [], [], [], []⟩
    ([] : EntityMap) ⟨0, [], [], [], []⟩
  exact ⟨by rw [h.1]; rfl, h.2.2 "Visa" (by decide)⟩

/-! ### Permutation facts about the sort -/

theorem insertSorted_perm (lt : α → α → Bool) (x : α) :
    ∀ l : List α, List.Perm (insertSorted lt x l) (x :: l)
  | [] => List.Perm.refl _
  | b :: l => by
    by_cases h : lt x b = true
    · rw [insertSorted, if_pos h]
    · rw [insertSorted, if_neg h]
      exact ((insertSorted_perm lt x l).cons b).trans (List.Perm.swap x b l)

theorem foldl_insertSorted_perm (lt : α → α → Bool) :
    ∀ (l acc : List α),
      List.Perm (l.foldl (fun acc x => insertSorted lt x acc) acc) (acc ++ l)
  | [], acc => by simp
  | x :: l, acc => by
    rw [List.foldl_cons]
    refine (foldl_insertSorted_perm lt l _).trans ?_
    refine ((insertSorted_perm lt x acc).append_right l).trans ?_
    rw [List.cons_append]
    exact List.perm_middle.symm

theorem sortByKey_perm (lt : α → α → Bool) (l : List α) :
    List.Perm (sortByKey lt l) l := by
  simpa using foldl_insertSorted_perm lt l []

/-! ### Category import facts -/

/-- The `createCategory` calls the subcategory loop issues when the parent
group resolves to `group_id` and fresh ids are drawn starting at `n`. -/
def subCreateOps (group_id : Option Nat) : Nat → List YSubCategory → List Op
  | _, [] => []
  | n, c :: cs =>
    if !c.isTombstone then
      Op.createCategory n c.name group_id :: subCreateOps group_id (n + 1) cs
    else subCreateOps group_id n cs

/-- The registry entries the subcategory loop records when fresh ids are
drawn starting at `n`. -/
def subAssignments : Nat → List YSubCategory → List (String × Nat)
  | _, [] => []
  | n, c :: cs =>
    if !c.isTombstone then (c.entityId, n) :: subAssignments (n + 1) cs
    else subAssignments n cs

theorem createSubCategories_cons_active (st : Ledger × EntityMap)
    (c : YSubCategory) (cs : List YSubCategory) (h : c.isTombstone = false) :
    createSubCategories st (c :: cs) =
      createSubCategories
        ({ st.1 with
            nextId := st.1.nextId + 1,
            categories := st.1.categories ++ [⟨st.1.nextId, c.name⟩],
            ops := st.1.ops ++
              [.createCategory st.1.nextId c.name (st.2.get c.masterCategoryId)] },
         st.2.set c.entityId st.1.nextId) cs := by
  simp [createSubCategories, h, Ledger.createCategory]

theorem createSubCategories_cons_dead (st : Ledger × EntityMap)
    (c : YSubCategory) (cs : List YSubCategory) (h : c.isTombstone = true) :
    createSubCategories st (c :: cs) = createSubCategories st cs := by
  simp [createSubCategories, h]

theorem createSubCategories_get_preserved :
    ∀ (cs : List YSubCategory) (st : Ledger × EntityMap) (k : String),
      (∀ c ∈ cs, c.entityId ≠ k) →
      (createSubCategories st cs).2.get k = st.2.get k
  | [], _, _, _ => rfl
  | c :: cs, st, k, h => by
    by_cases hts : c.isTombstone
    · rw [createSubCategories_cons_dead st c cs hts]
      exact createSubCategories_get_preserved cs st k
        (fun c' hc' => h c' (List.mem_cons_of_mem _ hc'))
    · have hts' : c.isTombstone = false := by simpa using hts
      rw [createSubCategories_cons_active st c cs hts']
      rw [createSubCategories_get_preserved cs _ k
        (fun c' hc' => h c' (List.mem_cons_of_mem _ hc'))]
      show (st.2.set c.entityId st.1.nextId).get k = st.2.get k
      rw [EntityMap.get_set, if_neg (fun hk => h c (List.mem_cons_self c cs) hk.symm)]

theorem createSubCategories_ops (gid : Nat) (mid : String) :
    ∀ (cs : List YSubCategory) (led : Ledger) (mp : EntityMap),
      (∀ c ∈ cs, c.masterCategoryId = mid) →
      (∀ c ∈ cs, c.entityId ≠ mid) →
      mp.get mid = some gid →
      (createSubCategories (led, mp) cs).1.ops =
        led.ops ++ subCreateOps (some gid) led.nextId cs
  | [], led, mp, _, _, _ => by simp [createSubCategories, subCreateOps]
  | c :: cs, led, mp, hown, hsep, hmid => by
    by_cases hts : c.isTombstone
    · rw [createSubCategories_cons_dead (led, mp) c cs hts]
      rw [createSubCategories_ops gid mid cs led mp
        (fun c' hc' => hown c' (List.mem_cons_of_mem _ hc'))
        (fun c' hc' => hsep c' (List.mem_cons_of_mem _ hc')) hmid]
      simp [subCreateOps, hts]
    · have hts' : c.isTombstone = false := by simpa using hts
      rw [createSubCategories_cons_active (led, mp) c cs hts']
      have hmaster : EntityMap.get (led, mp).2 c.masterCategoryId = some gid := by
        show mp.get c.masterCategoryId = some gid
        rw [hown c (List.mem_cons_self c cs)]
        exact hmid
      have hmid' : (EntityMap.set (led, mp).2 c.entityId (led, mp).1.nextId).get mid =
          some gid := by
        show (mp.set c.entityId led.nextId).get mid = some gid
        rw [EntityMap.get_set,
          if_neg (fun hk => hsep c (List.mem_cons_self c cs) hk.symm)]
        exact hmid
      rw [createSubCategories_ops gid mid cs _ _
        (fun c' hc' => hown c' (List.mem_cons_of_mem _ hc'))
        (fun c' hc' => hsep c' (List.mem_cons_of_mem _ hc')) hmid']
      rw [hmaster]
      simp [subCreateOps, hts']

theorem subAssignments_lb :
    ∀ (n : Nat) (cs : List YSubCategory) (k : String) (v : Nat),
      (k, v) ∈ subAssignments n cs → n ≤ v
  | n, [], k, v, h => by simp [subAssignments] at h
  | n, c :: cs, k, v, h => by
    by_cases hts : c.isTombstone
    · rw [subAssignments, if_neg (by simp [hts])] at h
      exact subAssignments_lb n cs k v h
    · rw [subAssignments, if_pos (by simp [hts])] at h
      rcases List.mem_cons.mp h with h | h
      · have : v = n := congrArg Prod.snd h
        omega
      · have := subAssignments_lb (n + 1) cs k v h
        omega

theorem subAssignments_snd_nodup :
    ∀ (n : Nat) (cs : List YSubCategory),
      ((subAssignments n cs).map Prod.snd).Nodup
  | n, [] => by simp [subAssignments]
  | n, c :: cs => by
    by_cases hts : c.isTombstone
    · rw [subAssignments, if_neg (by simp [hts])]
      exact subAssignments_snd_nodup n cs
    · rw [subAssignments, if_pos (by simp [hts])]
      rw [List.map_cons, List.nodup_cons]
      refine ⟨?_, subAssignments_snd_nodup (n + 1) cs⟩
      intro hmem
      rcases List.mem_map.mp hmem with ⟨⟨k, v⟩, hkv, hv⟩
      have := subAssignments_lb (n + 1) cs k v hkv
      simp only at hv
      omega

theorem createSubCategories_assignments :
    ∀ (cs : List YSubCategory) (led : Ledger) (mp : EntityMap),
      ((cs.map YSubCategory.entityId).Nodup) →
      ∀ (k : String) (v : Nat), (k, v) ∈ subAssignments led.nextId cs →
        (createSubCategories (led, mp) cs).2.get k = some v
  | [], led, mp, _, k, v, h => by simp [subAssignments] at h
  | c :: cs, led, mp, hnodup, k, v, h => by
    by_cases hts : c.isTombstone
    · rw [createSubCategories_cons_dead (led, mp) c cs hts]
      rw [subAssignments, if_neg (by simp [hts])] at h
      exact createSubCategories_assignments cs led mp
        ((List.nodup_cons.mp hnodup).2) k v h
    · have hts' : c.isTombstone = false := by simpa using hts
      rw [subAssignments, if_pos (by simp [hts'])] at h
      rw [createSubCategories_cons_active (led, mp) c cs hts']
      rcases List.mem_cons.mp h with h | h
      · have hk : k = c.entityId := congrArg Prod.fst h
        have hv : v = led.nextId := congrArg Prod.snd h
        subst hk
        subst hv
        rw [createSubCategories_get_preserved cs _ c.entityId ?_]
        · show (mp.set c.entityId led.nextId).get c.entityId = some led.nextId
          rw [EntityMap.get_set, if_pos rfl]
        · intro c' hc' hcon
          exact (List.nodup_cons.mp hnodup).1
            (hcon ▸ List.mem_map_of_mem YSubCategory.entityId hc')
      · exact createSubCategories_assignments cs _ _
          ((List.nodup_cons.mp hnodup).2) k v h

theorem qualifies_subCategories {m : YMasterCategory} (hq : qualifies m = true) :
    m.subCategories = some (subsOf m) := by
  cases hsubs : m.subCategories with
  | none =>
    rw [qualifies, hsubs] at hq
    simp at hq
  | some subs => simp [subsOf, hsubs]

theorem processMasterCategory_eq_of_qualifies (st : Ledger × EntityMap)
    (m : YMasterCategory) (hq : qualifies m = true) :
    processMasterCategory st m =
      createSubCategories
        ({ st.1 with
            nextId := st.1.nextId + 1,
            ops := st.1.ops ++ [.createCategoryGroup st.1.nextId m.name false] },
         st.2.set m.entityId st.1.nextId)
        (sortByKey subCategoryLt (subsOf m)).reverse := by
  rw [processMasterCategory, if_pos hq, qualifies_subCategories hq]
  simp [Ledger.createCategoryGroup]

theorem processMasterCategory_eq_of_not_qualifies (st : Ledger × EntityMap)
    (m : YMasterCategory) (hq : qualifies m = false) :
    processMasterCategory st m = st := by
  rw [processMasterCategory, if_neg (by simp [hq])]

/-- C5: for a qualifying master category, the ledger receives the group
creation followed by one `createCategory` call per non-tombstoned
subcategory, strictly sequentially in the order of the ascending
`sortableIndex` sort reversed (descending), with consecutive fresh ids;
every created subcategory is registered under the id it was created with,
and distinct subcategories receive distinct ids. -/
theorem processMasterCategory_creates_subs_descending
    (m : YMasterCategory) (st : Ledger × EntityMap)
    (hq : qualifies m = true)
    (hown : ∀ c ∈ subsOf m, c.masterCategoryId = m.entityId)
    (hsep : ∀ c ∈ subsOf m, c.entityId ≠ m.entityId)
    (hnodup : ((subsOf m).map YSubCategory.entityId).Nodup) :
    ((processMasterCategory st m).1.ops =
      st.1.ops ++ [Op.createCategoryGroup st.1.nextId m.name false] ++
        subCreateOps (some st.1.nextId) (st.1.nextId + 1)
          (sortByKey subCategoryLt (subsOf m)).reverse) ∧
    (∀ k v, (k, v) ∈ subAssignments (st.1.nextId + 1)
        (sortByKey subCategoryLt (subsOf m)).reverse →
      (processMasterCategory st m).2.get k = some v) ∧
    (∀ k v k' v', (k, v) ∈ subAssignments (st.1.nextId + 1)
          (sortByKey subCategoryLt (subsOf m)).reverse →
        (k', v') ∈ subAssignments (st.1.nextId + 1)
          (sortByKey subCategoryLt (subsOf m)).reverse →
        k ≠ k' → v ≠ v') := by
  have hmemsub : ∀ c ∈ (sortByKey subCategoryLt (subsOf m)).reverse, c ∈ subsOf m := by
    intro c hc
    exact (mem_sortByKey subCategoryLt c (subsOf m)).mp (List.mem_reverse.mp hc)
  have hnodup' : (((sortByKey subCategoryLt (subsOf m)).reverse.map
      YSubCategory.entityId).Nodup) := by
    rw [List.map_reverse, List.nodup_reverse]
    exact (((sortByKey_perm subCategoryLt (subsOf m)).map
      YSubCategory.entityId).nodup_iff).mpr hnodup
  refine ⟨?_, ?_, ?_⟩
  · rw [processMasterCategory_eq_of_qualifies st m hq]
    rw [createSubCategories_ops st.1.nextId m.entityId _ _ _
      (fun c hc => hown c (hmemsub c hc))
      (fun c hc => hsep c (hmemsub c hc))
      (by rw [EntityMap.get_set, if_pos rfl])]
  · intro k v hkv
    rw [processMasterCategory_eq_of_qualifies st m hq]
    exact createSubCategories_assignments _ _ _ hnodup' k v hkv
  · intro k v k' v' hkv hkv' hne hveq
    subst hveq
    have h2 : ((k, v) : String × Nat) = (k', v) :=
      List.inj_on_of_nodup_map (subAssignments_snd_nodup (st.1.nextId + 1)
        (sortByKey subCategoryLt (subsOf m)).reverse) hkv hkv' rfl
    exact hne (congrArg Prod.fst h2)

/-- The concrete master category of the C5 round-trip example. -/
def exampleMaster : YMasterCategory :=
  ⟨"mc", "Group", 0, "OUTFLOW", false,
    some [⟨"subA", "A", 1, "mc", false⟩, ⟨"subB", "B", 2, "mc", false⟩]⟩

/-- Witness for C5 at the round-trip example `[{idx:1,name:"A"},
{idx:2,name:"B"}]`: creation order is B then A and the two subcategories
are registered under the distinct ids 2 and 3. -/
theorem processMasterCategory_creates_subs_descending_witness :
    ((processMasterCategory (⟨1, [], [], [], []⟩, ([] : EntityMap))
        exampleMaster).1.ops =
      [Op.createCategoryGroup 1 "Group" false,
       Op.createCategory 2 "B" (some 1),
       Op.createCategory 3 "A" (some 1)]) ∧
    (processMasterCategory (⟨1, [], [], [], []⟩, ([] : EntityMap))
        exampleMaster).2.get "subB" = some 2 ∧
    (processMasterCategory (⟨1, [], [], [], []⟩, ([] : EntityMap))
        exampleMaster).2.get "subA" = some 3 := by
  have h := processMasterCategory_creates_subs_descending exampleMaster
    (⟨1, [], [], [], []⟩, ([] : EntityMap)) (by decide) (by decide) (by decide)
    (by decide)
  exact ⟨by rw [h.1]; decide, h.2.1 "subB" 2 (by decide), h.2.1 "subA" 3 (by decide)⟩

def isCreateGroupOp : Op → Bool
  | .createCategoryGroup _ _ _ => true
  | _ => false

theorem createSubCategories_groupCount :
    ∀ (cs : List YSubCategory) (st : Ledger × EntityMap),
      ((createSubCategories st cs).1.ops.countP isCreateGroupOp) =
        st.1.ops.countP isCreateGroupOp
  | [], _ => rfl
  | c :: cs, st => by
    by_cases hts : c.isTombstone
    · rw [createSubCategories_cons_dead st c cs hts]
      exact createSubCategories_groupCount cs st
    · have hts' : c.isTombstone = false := by simpa using hts
      rw [createSubCategories_cons_active st c cs hts',
        createSubCategories_groupCount cs _]
      simp [List.countP_append, isCreateGroupOp]

theorem processMasterCategory_groupCount (st : Ledger × EntityMap)
    (m : YMasterCategory) :
    ((processMasterCategory st m).1.ops.countP isCreateGroupOp) =
      st.1.ops.countP isCreateGroupOp + (if qualifies m then 1 else 0) := by
  by_cases hq : qualifies m
  · rw [processMasterCategory_eq_of_qualifies st m hq,
      createSubCategories_groupCount]
    simp [List.countP_append, isCreateGroupOp, hq]
  · rw [processMasterCategory_eq_of_not_qualifies st m (by simpa using hq)]
    simp [hq]

theorem foldl_processMasterCategory_groupCount :
    ∀ (l : List YMasterCategory) (st : Ledger × EntityMap),
      ((l.foldl processMasterCategory st).1.ops.countP isCreateGroupOp) =
        st.1.ops.countP isCreateGroupOp + l.countP qualifies
  | [], st => by simp
  | m :: l, st => by
    rw [List.foldl_cons, foldl_processMasterCategory_groupCount l,
      processMasterCategory_groupCount, List.countP_cons]
    by_cases hq : qualifies m
    · simp [hq]
      omega
    · simp [hq]

theorem foldl_processMasterCategory_get_preserved :
    ∀ (l : List YMasterCategory) (st : Ledger × EntityMap) (k : String),
      (∀ m' ∈ l, ∀ st' : Ledger × EntityMap,
        (processMasterCategory st' m').2.get k = st'.2.get k) →
      ((l.foldl processMasterCategory st).2.get k = st.2.get k)
  | [], _, _, _ => rfl
  | m :: l, st, k, h => by
    rw [List.foldl_cons, foldl_processMasterCategory_get_preserved l _ k
      (fun m' hm' => h m' (List.mem_cons_of_mem _ hm'))]
    exact h m (List.mem_cons_self m l) st

theorem processMasterCategory_get_untouched (st : Ledger × EntityMap)
    (m : YMasterCategory) (k : String)
    (hk1 : k ≠ m.entityId) (hk2 : ∀ c ∈ subsOf m, c.entityId ≠ k) :
    (processMasterCategory st m).2.get k = st.2.get k := by
  by_cases hq : qualifies m
  · rw [processMasterCategory_eq_of_qualifies st m hq]
    rw [createSubCategories_get_preserved _ _ k ?_]
    · show (st.2.set m.entityId st.1.nextId).get k = st.2.get k
      rw [EntityMap.get_set, if_neg hk1]
    · intro c hc
      exact hk2 c ((mem_sortByKey subCategoryLt c (subsOf m)).mp
        (List.mem_reverse.mp hc))
  · rw [processMasterCategory_eq_of_not_qualifies st m (by simpa using hq)]

theorem not_qualifies_of_type_ne {m : YMasterCategory}
    (h : m.type ≠ "OUTFLOW") : qualifies m = false := by
  rw [qualifies]
  simp [h]

theorem qualifies_eq_spec : qualifies = fun m =>
    (m.type = "OUTFLOW" && !m.isTombstone &&
      (subsOf m).any (fun c => !c.isTombstone)) := by
  funext m
  cases hsubs : m.subCategories <;> simp [qualifies, subsOf, hsubs]

/-- C6: assuming entity ids are unique across the master-category tree (as
in a YNAB document), the number of category groups created equals the
number of master categories that are outflow-typed, not tombstoned and
have at least one non-tombstoned subcategory — a group is created exactly
for those — and a master category of non-outflow type neither gets a
registry mapping itself nor has any of its subcategories mapped. -/
theorem importCategories_group_iff (data : YData) (mp : EntityMap) (led : Ledger)
    (huniqMaster : ∀ m1 ∈ data.masterCategories, ∀ m2 ∈ data.masterCategories,
      m1.entityId = m2.entityId → m1 = m2)
    (hsubNotMaster : ∀ m1 ∈ data.masterCategories, ∀ c ∈ subsOf m1,
      ∀ m2 ∈ data.masterCategories, c.entityId ≠ m2.entityId)
    (hsubOwner : ∀ m1 ∈ data.masterCategories, ∀ c ∈ subsOf m1,
      ∀ m2 ∈ data.masterCategories, ∀ c2 ∈ subsOf m2,
      c.entityId = c2.entityId → m1 = m2) :
    ((importCategories data mp led).1.ops.countP isCreateGroupOp =
      led.ops.countP isCreateGroupOp +
        data.masterCategories.countP (fun m => m.type = "OUTFLOW" &&
          !m.isTombstone && (subsOf m).any (fun c => !c.isTombstone))) ∧
    (∀ m ∈ data.masterCategories, m.type ≠ "OUTFLOW" →
      ((importCategories data mp led).2.get m.entityId = mp.get m.entityId ∧
        ∀ c ∈ subsOf m,
          (importCategories data mp led).2.get c.entityId = mp.get c.entityId)) := by
  constructor
  · rw [importCategories, foldl_processMasterCategory_groupCount,
      countP_sortByKey, qualifies_eq_spec]
  · intro m hm htype
    have key : ∀ k : String, (k = m.entityId ∨ ∃ c ∈ subsOf m, c.entityId = k) →
        (importCategories data mp led).2.get k = mp.get k := by
      intro k hk
      rw [importCategories]
      apply foldl_processMasterCategory_get_preserved
      intro m' hm' st'
      have hm'mem : m' ∈ data.masterCategories :=
        (mem_sortByKey masterCategoryLt m' data.masterCategories).mp hm'
      by_cases heq : m' = m
      · subst heq
        rw [processMasterCategory_eq_of_not_qualifies st' m'
          (not_qualifies_of_type_ne htype)]
      · apply processMasterCategory_get_untouched
        · rcases hk with rfl | ⟨c, hc, rfl⟩
          · intro hkm'
            exact heq (huniqMaster m' hm'mem m hm hkm'.symm).symm.symm
          · exact hsubNotMaster m hm c hc m' hm'mem
        · intro c' hc'
          rcases hk with rfl | ⟨c, hc, rfl⟩
          · exact hsubNotMaster m' hm'mem c' hc' m hm
          · intro hcon
            exact heq (hsubOwner m' hm'mem c' hc' m hm c hc hcon)
    exact ⟨key m.entityId (Or.inl rfl),
      fun c hc => key c.entityId (Or.inr ⟨c, hc, rfl⟩)⟩

/-- A document with one qualifying outflow group and one non-outflow
master category, for the C6 witness. -/
def mixedCategoryData : YData :=
  ⟨[], [⟨"m1", "G1", 0, "OUTFLOW", false, some [⟨"s1", "A", 1, "m1", false⟩]⟩,
        ⟨"m2", "G2", 1, "INFLOW", false, some [⟨"s2", "B", 1, "m2", false⟩]⟩],
   [], [], []⟩

/-- Witness for C6 at a concrete input: exactly one group is created (for
the outflow master) and the non-outflow master and its subcategory remain
unmapped. -/
theorem importCategories_group_iff_witness :
    ((importCategories mixedCategoryData ([] : EntityMap)
        ⟨0, [], [], [], []⟩).1.ops.countP isCreateGroupOp = 1) ∧
    (importCategories mixedCategoryData ([] : EntityMap)
        ⟨0, [], [], [], []⟩).2.get "m2" = none ∧
    (importCategories mixedCategoryData ([] : EntityMap)
        ⟨0, [], [], [], []⟩).2.get "s2" = none := by
  have h := importCategories_group_iff mixedCategoryData ([] : EntityMap)
    ⟨0, [], [], [], []⟩ (by decide) (by decide) (by decide)
  have h2 := h.2 ⟨"m2", "G2", 1, "INFLOW", false, some [⟨"s2", "B", 1, "m2", false⟩]⟩
    (by decide) (by decide)
  refine ⟨by rw [h.1]; decide, h2.1.trans rfl, ?_⟩
  exact (h2.2 ⟨"s2", "B", 1, "m2", false⟩ (by decide)).trans rfl

/-! ### Budget replay facts -/

def isCarryoverOp : Op → Bool
  | .setBudgetCarryover _ _ _ => true
  | _ => false

/-- Generic fact: a fold whose step only appends to the operation log
leaves the existing log as a prefix. -/
theorem foldl_fst_extend {β σ : Type} (f : (List Op × σ) → β → (List Op × σ))
    (hf : ∀ st b, ∃ δ, (f st b).1 = st.1 ++ δ) :
    ∀ (l : List β) (st : List Op × σ), ∃ δ, (l.foldl f st).1 = st.1 ++ δ
  | [], st => ⟨[], by simp⟩
  | b :: l, st => by
    obtain ⟨δ1, h1⟩ := hf st b
    obtain ⟨δ2, h2⟩ := foldl_fst_extend f hf l (f st b)
    exact ⟨δ1 ++ δ2, by rw [List.foldl_cons, h2, h1, List.append_assoc]⟩

theorem processCategoryBudget_ops_extend (mp : EntityMap) (month : String)
    (st : List Op × CarryoverFlags) (cb : YCategoryBudget) :
    ∃ δ, (processCategoryBudget mp month st cb).1 = st.1 ++ δ := by
  rcases st with ⟨ops, flags⟩
  by_cases hts : cb.isTombstone
  · exact ⟨[], by simp [processCategoryBudget, hts]⟩
  · cases hcat : mp.get cb.categoryId with
    | none => exact ⟨[], by simp [processCategoryBudget, hts, hcat]⟩
    | some catId =>
      by_cases hA : cb.overspendingHandling = some "AffectsBuffer"
      · exact ⟨[Op.setBudgetAmount month catId (amountToInteger cb.budgeted)],
          by simp [processCategoryBudget, hts, hcat, hA]⟩
      · by_cases hC : cb.overspendingHandling = some "Confined" ∨ flags catId = true
        · exact ⟨[Op.setBudgetAmount month catId (amountToInteger cb.budgeted),
            Op.setBudgetCarryover month catId true],
            by simp [processCategoryBudget, hts, hcat, hA, hC]⟩
        · exact ⟨[Op.setBudgetAmount month catId (amountToInteger cb.budgeted)],
            by simp [processCategoryBudget, hts, hcat, hA, hC]⟩

theorem processCategoryBudget_emits (mp : EntityMap) (month : String)
    (st : List Op × CarryoverFlags) (cb : YCategoryBudget) (catId : Nat)
    (hts : cb.isTombstone = false) (hcat : mp.get cb.categoryId = some catId) :
    Op.setBudgetAmount month catId (amountToInteger cb.budgeted) ∈
      (processCategoryBudget mp month st cb).1 := by
  rcases st with ⟨ops, flags⟩
  by_cases hA : cb.overspendingHandling = some "AffectsBuffer"
  · simp [processCategoryBudget, hts, hcat, hA]
  · by_cases hC : cb.overspendingHandling = some "Confined" ∨ flags catId = true
    · simp [processCategoryBudget, hts, hcat, hA, hC]
    · simp [processCategoryBudget, hts, hcat, hA, hC]

theorem foldl_processCategoryBudget_mem (mp : EntityMap) (month : String)
    (l : List YCategoryBudget) (st : List Op × CarryoverFlags)
    (cb : YCategoryBudget) (hmem : cb ∈ l) (catId : Nat)
    (hts : cb.isTombstone = false) (hcat : mp.get cb.categoryId = some catId) :
    Op.setBudgetAmount month catId (amountToInteger cb.budgeted) ∈
      (l.foldl (processCategoryBudget mp month) st).1 := by
  obtain ⟨l1, l2, rfl⟩ := List.append_of_mem hmem
  rw [List.foldl_append, List.foldl_cons]
  obtain ⟨δ, hδ⟩ := foldl_fst_extend (processCategoryBudget mp month)
    (processCategoryBudget_ops_extend mp month) l2 _
  rw [hδ]
  exact List.mem_append_left _
    (processCategoryBudget_emits mp month _ cb catId hts hcat)

/-- Generic fact: a fold whose step only appends entries satisfying `P`
leaves the input as a prefix, with every appended entry satisfying `P`. -/
theorem foldl_append_pred {β : Type} (P : YCategoryBudget → Prop)
    (step : List YCategoryBudget → β → List YCategoryBudget)
    (hstep : ∀ budgets b, ∃ added, step budgets b = budgets ++ added ∧
      ∀ e ∈ added, P e) :
    ∀ (l : List β) (budgets : List YCategoryBudget),
      ∃ added, l.foldl step budgets = budgets ++ added ∧ ∀ e ∈ added, P e
  | [], budgets => ⟨[], by simp, by simp⟩
  | b :: l, budgets => by
    obtain ⟨a1, h1, hp1⟩ := hstep budgets b
    obtain ⟨a2, h2, hp2⟩ := foldl_append_pred P step hstep l (step budgets b)
    refine ⟨a1 ++ a2, ?_, ?_⟩
    · rw [List.foldl_cons, h2, h1, List.append_assoc]
    · intro e he
      rcases List.mem_append.mp he with h | h
      · exact hp1 e h
      · exact hp2 e h

theorem backfillStep_shape (budgets : List YCategoryBudget) (c : YSubCategory) :
    ∃ added, backfillStep budgets c = budgets ++ added ∧
      ∀ e ∈ added, e.budgeted = 0 ∧ e.isTombstone = false := by
  rw [backfillStep]
  split
  · exact ⟨[], by simp, by simp⟩
  · refine ⟨[backfillEntry c.entityId], rfl, ?_⟩
    intro e he
    simp only [List.mem_singleton] at he
    subst he
    exact ⟨rfl, rfl⟩

theorem backfillMaster_shape (budgets : List YCategoryBudget)
    (m : YMasterCategory) :
    ∃ added, backfillMaster budgets m = budgets ++ added ∧
      ∀ e ∈ added, e.budgeted = 0 ∧ e.isTombstone = false := by
  rw [backfillMaster]
  cases m.subCategories with
  | none => exact ⟨[], by simp, by simp⟩
  | some subs =>
    exact foldl_append_pred _ backfillStep backfillStep_shape subs budgets

theorem fillInBudgets_shape (data : YData) (base : List YCategoryBudget) :
    ∃ added, fillInBudgets data base = base ++ added ∧
      ∀ e ∈ added, e.budgeted = 0 ∧ e.isTombstone = false :=
  foldl_append_pred _ backfillMaster backfillMaster_shape
    data.masterCategories base

theorem backfillStep_covers (budgets : List YCategoryBudget)
    (c : YSubCategory) :
    ∃ e ∈ backfillStep budgets c, e.categoryId = c.entityId := by
  rw [backfillStep]
  split
  · rename_i h
    obtain ⟨e, he, hx⟩ := List.any_eq_true.mp h
    exact ⟨e, he, by simpa using hx⟩
  · exact ⟨backfillEntry c.entityId, by simp, rfl⟩

theorem foldl_backfillStep_covers :
    ∀ (subs : List YSubCategory) (budgets : List YCategoryBudget)
      (c : YSubCategory), c ∈ subs →
      ∃ e ∈ subs.foldl backfillStep budgets, e.categoryId = c.entityId
  | c' :: subs, budgets, c, hc => by
    rw [List.foldl_cons]
    rcases List.mem_cons.mp hc with rfl | hc
    · obtain ⟨e, he, hx⟩ := backfillStep_covers budgets c
      obtain ⟨added, hadd, _⟩ := foldl_append_pred (fun _ => True) backfillStep
        (fun budgets b => by
          obtain ⟨a, h1, _⟩ := backfillStep_shape budgets b
          exact ⟨a, h1, fun _ _ => trivial⟩) subs (backfillStep budgets c)
      exact ⟨e, by rw [hadd]; exact List.mem_append_left _ he, hx⟩
    · exact foldl_backfillStep_covers subs _ c hc

theorem fillInBudgets_covers (data : YData) (base : List YCategoryBudget)
    (m : YMasterCategory) (hm : m ∈ data.masterCategories)
    (c : YSubCategory) (hc : c ∈ subsOf m) :
    ∃ e ∈ fillInBudgets data base, e.categoryId = c.entityId := by
  obtain ⟨l1, l2, hsplit⟩ := List.append_of_mem hm
  rw [fillInBudgets, hsplit, List.foldl_append, List.foldl_cons]
  have hsubs : m.subCategories = some (subsOf m) := by
    cases hs : m.subCategories with
    | none =>
      rw [subsOf, hs] at hc
      simp at hc
    | some subs => simp [subsOf, hs]
  obtain ⟨e, he, hx⟩ : ∃ e ∈ backfillMaster (l1.foldl backfillMaster base) m,
      e.categoryId = c.entityId := by
    rw [backfillMaster, hsubs]
    exact foldl_backfillStep_covers (subsOf m) _ c hc
  obtain ⟨added, hadd, _⟩ := foldl_append_pred (fun _ => True) backfillMaster
    (fun budgets b => by
      obtain ⟨a, h1, _⟩ := backfillMaster_shape budgets b
      exact ⟨a, h1, fun _ _ => trivial⟩) l2 _
  exact ⟨e, by rw [hadd]; exact List.mem_append_left _ he, hx⟩

theorem fillInBudgets_backfills (data : YData) (base : List YCategoryBudget)
    (m : YMasterCategory) (hm : m ∈ data.masterCategories)
    (c : YSubCategory) (hc : c ∈ subsOf m)
    (hnone : ∀ e ∈ base, e.categoryId ≠ c.entityId) :
    ∃ e ∈ fillInBudgets data base, e.categoryId = c.entityId ∧
      e.budgeted = 0 ∧ e.isTombstone = false := by
  obtain ⟨e, he, hx⟩ := fillInBudgets_covers data base m hm c hc
  obtain ⟨added, hadd, hpred⟩ := fillInBudgets_shape data base
  rw [hadd] at he
  rcases List.mem_append.mp he with h | h
  · exact absurd hx (hnone e h)
  · exact ⟨e, by rw [hadd]; exact List.mem_append_right _ h, hx,
      (hpred e h).1, (hpred e h).2⟩

theorem processMonth_ops_extend (data : YData) (mp : EntityMap)
    (st : List Op × CarryoverFlags) (mb : YMonthlyBudget) :
    ∃ δ, (processMonth data mp st mb).1 = st.1 ++ δ :=
  foldl_fst_extend _ (processCategoryBudget_ops_extend mp (monthFromDate mb.month))
    (fillInBudgets data mb.monthlySubCategoryBudgets) st

theorem amountToInteger_zero : amountToInteger 0 = 0 := by decide

def budgetSeqMap : EntityMap := [("c1", 5)]

/-- Three months for category `c1`: month 1 `Confined`, month 2 no marker,
month 3 `AffectsBuffer` (listed out of order to exercise the sort). -/
def budgetSeqData : YData :=
  ⟨[], [], [], [],
   [⟨"2017-02-01", [⟨3, "c1", none, false⟩]⟩,
    ⟨"2017-01-01", [⟨5, "c1", some "Confined", false⟩]⟩,
    ⟨"2017-03-01", [⟨0, "c1", some "AffectsBuffer", false⟩]⟩]⟩

/-- C2: for a non-tombstoned, mapped entry the carryover flag and pushes
evolve as: `Confined` turns the flag on and pushes the on-state for the
month; `AffectsBuffer` turns the flag off and pushes no carryover call;
any other (or absent) marker re-pushes the on-state exactly when the flag
is already on, and leaves the flag off and pushes nothing when it is off.
In particular, replaying the three-month sequence Confined / no marker /
AffectsBuffer pushes the on-state in months 1 and 2 and nothing in
month 3. -/
theorem processCategoryBudget_carryover_spec (mp : EntityMap) (month : String)
    (ops : List Op) (flags : CarryoverFlags) (cb : YCategoryBudget)
    (catId : Nat) (hts : cb.isTombstone = false)
    (hcat : mp.get cb.categoryId = some catId) :
    ((cb.overspendingHandling = some "Confined" →
        (processCategoryBudget mp month (ops, flags) cb).2 catId = true ∧
        Op.setBudgetCarryover month catId true ∈
          (processCategoryBudget mp month (ops, flags) cb).1) ∧
      (cb.overspendingHandling = some "AffectsBuffer" →
        (processCategoryBudget mp month (ops, flags) cb).2 catId = false ∧
        (processCategoryBudget mp month (ops, flags) cb).1.filter isCarryoverOp =
          ops.filter isCarryoverOp) ∧
      (cb.overspendingHandling ≠ some "Confined" →
        cb.overspendingHandling ≠ some "AffectsBuffer" →
        ((flags catId = true →
            (processCategoryBudget mp month (ops, flags) cb).2 catId = true ∧
            Op.setBudgetCarryover month catId true ∈
              (processCategoryBudget mp month (ops, flags) cb).1) ∧
          (flags catId = false →
            (processCategoryBudget mp month (ops, flags) cb).2 catId = false ∧
            (processCategoryBudget mp month (ops, flags) cb).1.filter isCarryoverOp =
              ops.filter isCarryoverOp)))) ∧
    (importBudgets budgetSeqData budgetSeqMap ⟨0, [], [], [], []⟩).map
        (fun led => led.ops.filter isCarryoverOp) =
      some [Op.setBudgetCarryover "2017-01" 5 true,
            Op.setBudgetCarryover "2017-02" 5 true] := by
  refine ⟨⟨?_, ?_, ?_⟩, by decide⟩
  · intro h
    constructor
    · simp [processCategoryBudget, hts, hcat, h]
    · simp [processCategoryBudget, hts, hcat, h]
  · intro h
    constructor
    · simp [processCategoryBudget, hts, hcat, h]
    · simp [processCategoryBudget, hts, hcat, h, List.filter_append, isCarryoverOp]
  · intro hC hA
    constructor
    · intro hflag
      constructor
      · simp [processCategoryBudget, hts, hcat, hC, hA, hflag]
      · simp [processCategoryBudget, hts, hcat, hC, hA, hflag]
    · intro hflag
      constructor
      · simp [processCategoryBudget, hts, hcat, hC, hA, hflag]
      · simp [processCategoryBudget, hts, hcat, hC, hA, hflag,
          List.filter_append, isCarryoverOp]

/-- Witness for C2 at the first month of the concrete sequence: the
`Confined` entry turns the flag on and pushes the on-state. -/
theorem processCategoryBudget_carryover_spec_witness :
    (processCategoryBudget budgetSeqMap "2017-01" ([], noFlags)
        ⟨5, "c1", some "Confined", false⟩).2 5 = true ∧
    Op.setBudgetCarryover "2017-01" 5 true ∈
      (processCategoryBudget budgetSeqMap "2017-01" ([], noFlags)
        ⟨5, "c1", some "Confined", false⟩).1 :=
  (processCategoryBudget_carryover_spec budgetSeqMap "2017-01" [] noFlags
    ⟨5, "c1", some "Confined", false⟩ 5 rfl (by decide)).1.1 rfl

/-- C8 (amended): for every month of the source and every subcategory of
the master-category tree that is mapped in the registry, the replay issues
a `setBudgetAmount` write for that month and category — with the entry's
amount when the month's source list holds a non-tombstoned entry for the
category, and with amount zero (the backfill) when the month's list holds
no entry for it at all.  (A month whose only entries for the category are
tombstoned is the exception the source carves out: it gets no write.) -/
theorem importBudgets_writes_every_active_category (data : YData)
    (mp : EntityMap) (led : Ledger) (mb : YMonthlyBudget)
    (hmb : mb ∈ data.monthlyBudgets)
    (m : YMasterCategory) (hm : m ∈ data.masterCategories)
    (c : YSubCategory) (hc : c ∈ subsOf m)
    (catId : Nat) (hcat : mp.get c.entityId = some catId) :
    ∃ led', importBudgets data mp led = some led' ∧
      ((∀ e ∈ mb.monthlySubCategoryBudgets, e.categoryId ≠ c.entityId) →
        Op.setBudgetAmount (monthFromDate mb.month) catId 0 ∈ led'.ops) ∧
      (∀ e ∈ mb.monthlySubCategoryBudgets, e.categoryId = c.entityId →
        e.isTombstone = false →
        Op.setBudgetAmount (monthFromDate mb.month) catId
          (amountToInteger e.budgeted) ∈ led'.ops) := by
  have hne : data.monthlyBudgets ≠ [] := by
    intro h
    rw [h] at hmb
    exact (List.not_mem_nil mb) hmb
  cases hs : sortByKey monthlyBudgetLt data.monthlyBudgets with
  | nil => exact absurd ((sortByKey_eq_nil_iff monthlyBudgetLt _).mp hs) hne
  | cons b0 rest =>
    have hmmem : mb ∈ b0 :: rest := by
      rw [← hs]
      exact (mem_sortByKey monthlyBudgetLt mb data.monthlyBudgets).mpr hmb
    obtain ⟨s1, s2, hsplit⟩ := List.append_of_mem hmmem
    have key : ∀ X : Op,
        X ∈ (processMonth data mp (s1.foldl (processMonth data mp)
          ([], noFlags)) mb).1 →
        X ∈ ((b0 :: rest).foldl (processMonth data mp) ([], noFlags)).1 := by
      intro X hX
      rw [hsplit, List.foldl_append, List.foldl_cons]
      obtain ⟨δ, hδ⟩ := foldl_fst_extend (processMonth data mp)
        (processMonth_ops_extend data mp) s2 _
      rw [hδ]
      exact List.mem_append_left _ hX
    refine ⟨{ led with ops := led.ops ++
      ((b0 :: rest).foldl (processMonth data mp) ([], noFlags)).1 }, ?_, ?_, ?_⟩
    · rw [importBudgets, hs]
    · intro hnone
      obtain ⟨e, he, hcid, hbud, hets⟩ := fillInBudgets_backfills data
        mb.monthlySubCategoryBudgets m hm c hc hnone
      have hw := foldl_processCategoryBudget_mem mp (monthFromDate mb.month)
        (fillInBudgets data mb.monthlySubCategoryBudgets)
        (s1.foldl (processMonth data mp) ([], noFlags)) e he catId hets
        (by rw [hcid]; exact hcat)
      rw [hbud, amountToInteger_zero] at hw
      exact List.mem_append_right _ (key _ hw)
    · intro e he hcid hets
      obtain ⟨added, hadd, _⟩ := fillInBudgets_shape data
        mb.monthlySubCategoryBudgets
      have hmemfilled : e ∈ fillInBudgets data mb.monthlySubCategoryBudgets := by
        rw [hadd]
        exact List.mem_append_left _ he
      have hw := foldl_processCategoryBudget_mem mp (monthFromDate mb.month)
        (fillInBudgets data mb.monthlySubCategoryBudgets)
        (s1.foldl (processMonth data mp) ([], noFlags)) e hmemfilled catId hets
        (by rw [hcid]; exact hcat)
      exact List.mem_append_right _ (key _ hw)

/-- One month whose only entry for the mapped category `c` is tombstoned:
the tombstoned entry blocks both the backfill and the write. -/
def tombstonedBudgetData : YData :=
  ⟨[], [⟨"m", "G", 0, "OUTFLOW", false, some [⟨"c", "Food", 1, "m", false⟩]⟩],
   [], [], [⟨"2017-01-01", [⟨5, "c", none, true⟩]⟩]⟩

/-- Counterexample to C8 as stated: `c` is an active category (in the
master tree and mapped to target id 1) and the month `2017-01` is present,
yet the replay issues no `setBudgetAmount` write at all, because the
month's sole source entry for `c` is tombstoned — it suppresses the
backfill (the `find` ignores tombstones) and is itself skipped. -/
theorem importBudgets_tombstone_blocks_write :
    (tombstonedBudgetData.monthlyBudgets.map YMonthlyBudget.month =
      ["2017-01-01"]) ∧
    (∃ m ∈ tombstonedBudgetData.masterCategories,
      ∃ c ∈ subsOf m, c.entityId = "c") ∧
    EntityMap.get [("c", 1)] "c" = some 1 ∧
    importBudgets tombstonedBudgetData [("c", 1)] ⟨0, [], [], [], []⟩ =
      some ⟨0, [], [], [], []⟩ := by
  refine ⟨by decide, ?_, by decide, by decide⟩
  exact ⟨⟨"m", "G", 0, "OUTFLOW", false, some [⟨"c", "Food", 1, "m", false⟩]⟩,
    by decide, ⟨"c", "Food", 1, "m", false⟩, by decide, rfl⟩

/-- One month with an empty budget list but an active mapped category, for
the C8 witness: the backfill must produce a zero write. -/
def backfillSeqData : YData :=
  ⟨[], [⟨"m", "G", 0, "OUTFLOW", false, some [⟨"c", "Food", 1, "m", false⟩]⟩],
   [], [], [⟨"2017-01-01", []⟩]⟩

/-- Witness for the amended C8 at a concrete input. -/
theorem importBudgets_writes_every_active_category_witness :
    ∃ led', importBudgets backfillSeqData [("c", 7)] ⟨0, [], [], [], []⟩ =
        some led' ∧
      ((∀ e ∈ (YMonthlyBudget.mk "2017-01-01" []).monthlySubCategoryBudgets,
          e.categoryId ≠ "c") →
        Op.setBudgetAmount (monthFromDate "2017-01-01") 7 0 ∈ led'.ops) ∧
      (∀ e ∈ (YMonthlyBudget.mk "2017-01-01" []).monthlySubCategoryBudgets,
        e.categoryId = "c" → e.isTombstone = false →
        Op.setBudgetAmount (monthFromDate "2017-01-01") 7
          (amountToInteger e.budgeted) ∈ led'.ops) :=
  importBudgets_writes_every_active_category backfillSeqData [("c", 7)]
    ⟨0, [], [], [], []⟩ ⟨"2017-01-01", []⟩ (by decide)
    ⟨"m", "G", 0, "OUTFLOW", false, some [⟨"c", "Food", 1, "m", false⟩]⟩
    (by decide) ⟨"c", "Food", 1, "m", false⟩ (by decide) 7 (by decide)

/-! ### Transaction import facts -/

theorem strictEqIds_eq_true {x y : Option Nat} (h : strictEqIds x y = true) :
    ∃ a, x = some a ∧ y = some a := by
  cases x with
  | none => simp [strictEqIds] at h
  | some a =>
    cases y with
    | none => simp [strictEqIds] at h
    | some b =>
      simp only [strictEqIds, decide_eq_true_eq] at h
      exact ⟨a, rfl, by rw [h]⟩

/-- The result of the per-transaction conversion once the payee
resolution and the account lookup are known to succeed. -/
theorem convertTransaction_eq_some (accounts : List TAccount)
    (payees : List TPayee) (incomeCategoryId : Nat) (mp : EntityMap)
    (accountId : String) (t : YTransaction) (pid : Option Nat) (acct : TAccount)
    (hts : t.isTombstone = false)
    (hp : resolvePayee payees mp t = some pid)
    (hacct : accounts.find? (fun a => strictEqIds (some a.id) (mp.get accountId)) =
      some acct) :
    convertTransaction accounts payees incomeCategoryId mp accountId t =
      some (some
        { id := mp.get t.entityId,
          amount := amountToInteger t.amount,
          category_id := if acct.offbudget then none
            else getCategory incomeCategoryId mp t.categoryId,
          date := t.date,
          notes := t.memo.bind (fun s => if s = "" then none else some s),
          payee := none,
          payee_id := pid,
          transfer_id := t.transferTransactionId.bind mp.get,
          subtransactions := t.subTransactions.map (fun subs => subs.map (fun s =>
            { amount := amountToInteger s.amount,
              category_id := getCategory incomeCategoryId mp s.categoryId })) }) := by
  rw [convertTransaction, if_neg (by simp [hts]), hp, hacct]

/-- C3: for a non-tombstoned transaction whose transfer-counterpart legacy
id maps to a real target id, the written transaction's `payee_id` is the
id of the payee found by `transfer_acct` equal to the registry resolution
of the transaction's target-account legacy id — both sides present and
equal — and it is never null; for a non-transfer transaction, `payee_id`
is the direct registry lookup of the source payee id. -/
theorem convertTransaction_payee_resolution (accounts : List TAccount)
    (payees : List TPayee) (incomeCategoryId : Nat) (mp : EntityMap)
    (accountId : String) (t : YTransaction) (acct : TAccount)
    (hts : t.isTombstone = false)
    (hacct : accounts.find? (fun a => strictEqIds (some a.id) (mp.get accountId)) =
      some acct) :
    (∀ tid, t.transferTransactionId.bind mp.get = some tid →
      ∀ p, payees.find? (fun p => strictEqIds p.transfer_acct
          (t.targetAccountId.bind mp.get)) = some p →
        ∃ tx, convertTransaction accounts payees incomeCategoryId mp accountId t =
            some (some tx) ∧
          tx.payee_id = some p.id ∧ tx.payee_id ≠ none ∧
          ∃ a, p.transfer_acct = some a ∧
            t.targetAccountId.bind mp.get = some a) ∧
    (t.transferTransactionId.bind mp.get = none →
      ∃ tx, convertTransaction accounts payees incomeCategoryId mp accountId t =
          some (some tx) ∧
        tx.payee_id = t.payeeId.bind mp.get) := by
  constructor
  · intro tid htid p hp
    have hres : resolvePayee payees mp t = some (some p.id) := by
      rw [resolvePayee, if_pos (by rw [htid]; rfl), hp]
    exact ⟨_, convertTransaction_eq_some accounts payees incomeCategoryId mp
      accountId t (some p.id) acct hts hres hacct, rfl, by simp,
      strictEqIds_eq_true (by have h0 := List.find?_some hp; simpa using h0)⟩
  · intro htid
    have hres : resolvePayee payees mp t = some (t.payeeId.bind mp.get) := by
      rw [resolvePayee, if_neg (by rw [htid]; simp)]
    exact ⟨_, convertTransaction_eq_some accounts payees incomeCategoryId mp
      accountId t (t.payeeId.bind mp.get) acct hts hres hacct, rfl⟩

def transferAccounts : List TAccount :=
  [⟨3, "checking", "A", false, false⟩, ⟨4, "checking", "B", false, false⟩]

def transferPayees : List TPayee :=
  [⟨7, "Transfer: B", some 4⟩, ⟨8, "Grocer", none⟩]

def transferMap : EntityMap :=
  [("t1", 10), ("t2", 11), ("acc1", 3), ("acc2", 4), ("pay1", 8)]

/-- One leg of a transfer from `acc1` to `acc2`, whose counterpart `t2` is
mapped. -/
def transferLeg : YTransaction :=
  ⟨"t1", "acc1", 5, "2017-01-01", none, none, some "pay1", some "acc2",
    some "t2", none, false⟩

/-- Witness for C3: the transfer leg resolves its payee to the synthesized
transfer payee (id 7) of the paired account, not to the source payee. -/
theorem convertTransaction_payee_resolution_witness :
    ∃ tx, convertTransaction transferAccounts transferPayees 99 transferMap
        "acc1" transferLeg = some (some tx) ∧
      tx.payee_id = some 7 ∧ tx.payee_id ≠ none ∧
      ∃ a, (⟨7, "Transfer: B", some 4⟩ : TPayee).transfer_acct = some a ∧
        transferLeg.targetAccountId.bind transferMap.get = some a :=
  (convertTransaction_payee_resolution transferAccounts transferPayees 99
    transferMap "acc1" transferLeg ⟨3, "checking", "A", false, false⟩ rfl
    (by decide)).1 11 (by decide) ⟨7, "Transfer: B", some 4⟩ (by decide)

/-- C4: for a non-tombstoned transaction on an off-budget account the
top-level `category_id` is null regardless of the source category, while
each split line still gets normal category resolution; and `getCategory`
maps the split placeholder to null, the income placeholders to the
canonical Income category, and anything else to the registry lookup. -/
theorem convertTransaction_offbudget_category (accounts : List TAccount)
    (payees : List TPayee) (incomeCategoryId : Nat) (mp : EntityMap)
    (accountId : String) (t : YTransaction) (acct : TAccount)
    (pid : Option Nat) (hts : t.isTombstone = false)
    (hacct : accounts.find? (fun a => strictEqIds (some a.id) (mp.get accountId)) =
      some acct)
    (hoff : acct.offbudget = true)
    (hp : resolvePayee payees mp t = some pid) :
    (∃ tx, convertTransaction accounts payees incomeCategoryId mp accountId t =
        some (some tx) ∧
      tx.category_id = none ∧
      tx.subtransactions = t.subTransactions.map (fun subs => subs.map (fun s =>
        { amount := amountToInteger s.amount,
          category_id := getCategory incomeCategoryId mp s.categoryId }))) ∧
    getCategory incomeCategoryId mp none = none ∧
    getCategory incomeCategoryId mp (some "Category/__Split__") = none ∧
    getCategory incomeCategoryId mp (some "Category/__ImmediateIncome__") =
      some incomeCategoryId ∧
    getCategory incomeCategoryId mp (some "Category/__DeferredIncome__") =
      some incomeCategoryId ∧
    (∀ s : String, s ≠ "Category/__Split__" → s ≠ "Category/__ImmediateIncome__" →
      s ≠ "Category/__DeferredIncome__" →
      getCategory incomeCategoryId mp (some s) = mp.get s) := by
  refine ⟨⟨_, convertTransaction_eq_some accounts payees incomeCategoryId mp
    accountId t pid acct hts hp hacct, by simp [hoff], rfl⟩,
    rfl, rfl, rfl, rfl, ?_⟩
  intro s h1 h2 h3
  simp [getCategory, h1, h2, h3]

def offbudgetAccounts : List TAccount := [⟨3, "investment", "Brokerage", true, false⟩]

/-- An off-budget transaction carrying a source category and one split
line with the split placeholder. -/
def offbudgetTxn : YTransaction :=
  ⟨"t9", "acc9", 5, "2017-01-01", none, some "catX", none, none, none,
    some [⟨2, some "Category/__Split__"⟩, ⟨3, some "catX"⟩], false⟩

def offbudgetMap : EntityMap := [("acc9", 3), ("catX", 42)]

/-- Witness for C4 at a concrete input. -/
theorem convertTransaction_offbudget_category_witness :
    (∃ tx, convertTransaction offbudgetAccounts [] 99 offbudgetMap "acc9"
        offbudgetTxn = some (some tx) ∧
      tx.category_id = none ∧
      tx.subtransactions = offbudgetTxn.subTransactions.map (fun subs =>
        subs.map (fun s =>
          { amount := amountToInteger s.amount,
            category_id := getCategory 99 offbudgetMap s.categoryId }))) ∧
    getCategory 99 offbudgetMap none = none ∧
    getCategory 99 offbudgetMap (some "Category/__Split__") = none ∧
    getCategory 99 offbudgetMap (some "Category/__ImmediateIncome__") = some 99 ∧
    getCategory 99 offbudgetMap (some "Category/__DeferredIncome__") = some 99 ∧
    (∀ s : String, s ≠ "Category/__Split__" → s ≠ "Category/__ImmediateIncome__" →
      s ≠ "Category/__DeferredIncome__" →
      getCategory 99 offbudgetMap (some s) = offbudgetMap.get s) :=
  convertTransaction_offbudget_category offbudgetAccounts [] 99 offbudgetMap
    "acc9" offbudgetTxn ⟨3, "investment", "Brokerage", true, false⟩ none rfl
    (by decide) rfl (by decide)

end YnabImport
